import Mathlib

/-!
Verification development for the Book-Chatbot client.

The repository ships two frontend variants with the same architecture:
a plain-JS client (src/web/script.js, class BookChatbot) and a React
client (src/react-frontend, plus the useChat/useAPI hooks).  The parts
embedded here are the ones the specification's testable properties are
about:

* the text annotation transformer, formatMessage, which rewrites a raw
  bot-response string by three global regex substitutions applied in
  sequence (book titles delimited by paired asterisk markers, ratings
  of the form N/5, prices of the form dollar-amount);
* createStarRating, the star decomposition of a numeric rating;
* the chat controller around sendMessage (busy flag, optimistic user
  message, fallback bot message on failure);
* session management (generateSessionId, clearChat, newSession);
* the book-detail flow (showBookDetails / handleBookClick) and the
  review rendering of the detail modal.

Strings are modelled as lists of characters.  Each JS global regex
replace is modelled as a scan that repeatedly locates the leftmost
match, substitutes it, and continues after the substituted text; the
scan is driven by a fuel argument equal to the string length, which is
sufficient because every match consumes at least one character.
JS numbers reaching createStarRating come from decimal literals matched
by the rating regex; they are modelled exactly as rationals.
-/

set_option maxRecDepth 100000

abbrev Str := List Char

/-- Is the pattern (first argument) a prefix of the second argument? -/
def hasPrefixL : Str → Str → Bool
  | [], _ => true
  | _ :: _, [] => false
  | p :: ps, c :: cs => p == c && hasPrefixL ps cs

/-- Number of positions of s at which pat occurs (as a prefix of the
suffix starting there). -/
def countOccur (pat : Str) : Str → Nat
  | [] => 0
  | c :: cs => (if hasPrefixL pat (c :: cs) then 1 else 0) + countOccur pat cs

/-- Value of a list of decimal digit characters. -/
def digitsToNat (ds : Str) : Nat :=
  ds.foldl (fun n c => 10 * n + (c.toNat - 48)) 0

/-- Exact value of the decimal literal with integer digits ds and
fraction digits fs (fs may be empty), as parsed by JS parseFloat. -/
def decVal (ds fs : Str) : ℚ :=
  (digitsToNat ds : ℚ) + (digitsToNat fs : ℚ) / ((10 : ℚ) ^ fs.length)

/-- JS String.prototype.trim on both ends (whitespace per Char.isWhitespace). -/
def trimStr (s : Str) : Str :=
  ((s.dropWhile Char.isWhitespace).reverse.dropWhile Char.isWhitespace).reverse

/-! ## The generic leftmost-match rewriting engine

A find function returns, for a string, the decomposition
(prefix before the leftmost match, replacement text, rest after the
match), or none if there is no match.  rewriteAux applies it
repeatedly, continuing after each substitution, exactly as a JS global
regex replace does.  Fuel bounds the number of matches; rewriteAll
supplies the string length, which is an upper bound on the number of
matches because every match consumes at least one character. -/

def rewriteAux (find : Str → Option (Str × Str × Str)) : Nat → Str → Str
  | 0, s => s
  | n + 1, s =>
    match find s with
    | none => s
    | some (p, rep, rest) => p ++ rep ++ rewriteAux find n rest

def rewriteAll (find : Str → Option (Str × Str × Str)) (s : Str) : Str :=
  rewriteAux find s.length s

/-! ## Rule matchers

Each matcher decides whether a match of its regex starts at the head of
the given string, returning the payload and the rest of the string
after the match.  The corresponding find function scans for the
leftmost matching position. -/

/-- Matcher for the book-title regex of Message.js line 232 and
script.js line 178: two asterisks, one or more non-asterisk characters,
two asterisks.  Returns (title, rest). -/
def bookMatch : Str → Option (Str × Str)
  | c1 :: c2 :: rest =>
    if c1 = '*' ∧ c2 = '*' then
      match rest.takeWhile (fun c => !(c == '*')), rest.dropWhile (fun c => !(c == '*')) with
      | [], _ => none
      | t, d1 :: d2 :: rest2 =>
        if d1 = '*' ∧ d2 = '*' then some (t, rest2) else none
      | _, _ => none
    else none
  | _ => none

/-- Matcher for the price regex (script.js line 188, Message.js line 237):
a dollar sign, one or more digits, optionally a dot followed by one or
more digits.  Returns (amount without the dollar sign, rest). -/
def priceMatchAt : Str → Option (Str × Str)
  | c :: rest =>
    if c = '$' then
      match rest.takeWhile Char.isDigit, rest.dropWhile Char.isDigit with
      | [], _ => none
      | ds, e :: r2 =>
        if e = '.' then
          match r2.takeWhile Char.isDigit with
          | [] => some (ds, e :: r2)
          | fs => some (ds ++ '.' :: fs, r2.dropWhile Char.isDigit)
        else some (ds, e :: r2)
      | ds, [] => some (ds, [])
    else none
  | [] => none

/-- Matcher for the rating regex (script.js line 183, Message.js line 240):
one or more digits, optionally a dot followed by one or more digits,
then the two characters slash five.  Returns the captured decimal as
its integer digits and fraction digits, and the rest.  The greedy
fraction group backtracks to absent only when no dot-digits follow the
integer digits, matching the JS engine. -/
def slashFive : Str → Option Str
  | c1 :: c2 :: r => if c1 = '/' ∧ c2 = '5' then some r else none
  | _ => none

def ratingMatchAt (s : Str) : Option ((Str × Str) × Str) :=
  match s.takeWhile Char.isDigit, s.dropWhile Char.isDigit with
  | [], _ => none
  | ds, e :: r2 =>
    if e = '.' then
      match r2.takeWhile Char.isDigit with
      | [] => none
      | fs => (slashFive (r2.dropWhile Char.isDigit)).map (fun r3 => ((ds, fs), r3))
    else (slashFive (e :: r2)).map (fun r3 => ((ds, []), r3))
  | _, [] => none

/-! ## Star rating (createStarRating, script.js 193-210 and
Message.js 247-264)

fullStars = Math.floor(rating); hasHalfStar = rating % 1 >= 0.5 (the JS
remainder equals the fractional part for the nonnegative values the
rating regex produces); emptyStars = 5 - fullStars - (hasHalfStar?1:0).
The loops render max(0,count) glyphs of each kind.

starCounts states the decomposition on the exact rational value of the
parsed literal; starCountsD computes the same decomposition directly on
the digit strings the rating matcher captured (for digits i.f we have
floor = value of i and fractional part f/10^len, so the half-star test
becomes 10^len <= 2*f); the lemma starCountsD_eq below proves the two
agree. -/

def starCounts (q : ℚ) : ℤ × Bool × ℤ :=
  let fullStars : ℤ := ⌊q⌋
  let hasHalfStar : Bool := decide ((1 : ℚ) / 2 ≤ q - fullStars)
  (fullStars, hasHalfStar, 5 - fullStars - (if hasHalfStar then 1 else 0))

def starCountsD (ds fs : Str) : ℤ × Bool × ℤ :=
  let fullStars : ℤ := (digitsToNat ds : ℤ)
  let hasHalfStar : Bool := decide (10 ^ fs.length ≤ 2 * digitsToNat fs)
  (fullStars, hasHalfStar, 5 - fullStars - (if hasHalfStar then 1 else 0))

/-- Rendered glyph counts (full, half, empty); a JS for loop with a
negative bound runs zero times, hence toNat. -/
def glyphCounts (q : ℚ) : Nat × Nat × Nat :=
  ((starCounts q).1.toNat, if (starCounts q).2.1 then 1 else 0, (starCounts q).2.2.toNat)

def glyphCountsD (ds fs : Str) : Nat × Nat × Nat :=
  ((starCountsD ds fs).1.toNat, if (starCountsD ds fs).2.1 then 1 else 0,
    (starCountsD ds fs).2.2.toNat)

def glyphTotal (q : ℚ) : Nat :=
  (glyphCounts q).1 + (glyphCounts q).2.1 + (glyphCounts q).2.2

/-! ## Markup fragments emitted by the two variants -/

def bookOpenR : Str := "<span class=\"book-link\" onclick=\"window.handleBookClick('".data
def bookOpenW : Str := "<span class=\"book-link\" onclick=\"chatbot.showBookDetails('".data
def bookMidR : Str := "')\">".data
def closeSpan : Str := "</span>".data
def priceOpen : Str := "<span class=\"price-highlight\">".data
def starOpenR : Str := "<span class=\"star-rating\">".data
def fullStarR : Str := "<span class=\"star\">★</span>".data
def halfStarR : Str := "<span class=\"star\">☆</span>".data
def emptyStarR : Str := "<span class=\"star empty\">☆</span>".data
def starOpenW : Str := "<span class=\"rating-stars\">".data
def fullStarW : Str := "<i class=\"fas fa-star star\"></i>".data
def halfStarW : Str := "<i class=\"fas fa-star-half-alt star\"></i>".data
def emptyStarW : Str := "<i class=\"far fa-star star empty\"></i>".data
def strongOpen : Str := "<strong>".data
def strongClose : Str := "</strong>".data
def emOpen : Str := "<em>".data
def emClose : Str := "</em>".data
def brTag : Str := "<br>".data

/-- The replacement emitted for a matched book title in Message.js. -/
def bookSpanR (t : Str) : Str := bookOpenR ++ t ++ bookMidR ++ t ++ closeSpan

/-- The replacement emitted for a matched book title at script.js line 178
(this regex runs after the bold substitution there, see formatMessageW). -/
def bookSpanW (t : Str) : Str := bookOpenW ++ t ++ bookMidR ++ t ++ closeSpan

/-- The replacement emitted for a matched price: the literal text is
two dollar signs then the captured group, i.e. a dollar sign and the
amount inside the highlight span. -/
def priceSpan (amt : Str) : Str := priceOpen ++ '$' :: amt ++ closeSpan

/-- Star markup of createStarRating in Message.js, applied to the
parsed decimal captured by the rating regex. -/
def createStarRatingR (ds fs : Str) : Str :=
  starOpenR
    ++ (List.replicate (glyphCountsD ds fs).1 fullStarR).flatten
    ++ (if (starCountsD ds fs).2.1 then halfStarR else [])
    ++ (List.replicate (glyphCountsD ds fs).2.2 emptyStarR).flatten
    ++ closeSpan

/-- Star markup of createStarRating in script.js, applied to the
parsed decimal captured by the rating regex. -/
def createStarRatingW (ds fs : Str) : Str :=
  starOpenW
    ++ (List.replicate (glyphCountsD ds fs).1 fullStarW).flatten
    ++ (if (starCountsD ds fs).2.1 then halfStarW else [])
    ++ (List.replicate (glyphCountsD ds fs).2.2 emptyStarW).flatten
    ++ closeSpan

/-! ## Find functions (leftmost match) for each substitution -/

def findBookR : Str → Option (Str × Str × Str)
  | [] => none
  | c :: cs =>
    match bookMatch (c :: cs) with
    | some (t, rest) => some ([], bookSpanR t, rest)
    | none => (findBookR cs).map (fun pr => (c :: pr.1, pr.2.1, pr.2.2))

def findBookW : Str → Option (Str × Str × Str)
  | [] => none
  | c :: cs =>
    match bookMatch (c :: cs) with
    | some (t, rest) => some ([], bookSpanW t, rest)
    | none => (findBookW cs).map (fun pr => (c :: pr.1, pr.2.1, pr.2.2))

def findPrice : Str → Option (Str × Str × Str)
  | [] => none
  | c :: cs =>
    match priceMatchAt (c :: cs) with
    | some (amt, rest) => some ([], priceSpan amt, rest)
    | none => (findPrice cs).map (fun pr => (c :: pr.1, pr.2.1, pr.2.2))

def findRatingR : Str → Option (Str × Str × Str)
  | [] => none
  | c :: cs =>
    match ratingMatchAt (c :: cs) with
    | some ((ds, fs), rest) => some ([], createStarRatingR ds fs, rest)
    | none => (findRatingR cs).map (fun pr => (c :: pr.1, pr.2.1, pr.2.2))

def findRatingW : Str → Option (Str × Str × Str)
  | [] => none
  | c :: cs =>
    match ratingMatchAt (c :: cs) with
    | some ((ds, fs), rest) => some ([], createStarRatingW ds fs, rest)
    | none => (findRatingW cs).map (fun pr => (c :: pr.1, pr.2.1, pr.2.2))

/-- Lazy closing search for the bold regex of script.js line 173: the
dot does not match a newline, and the nearest pair of asterisks closes. -/
def findCloseBold : Str → Option (Str × Str)
  | [] => none
  | c :: rest =>
    if c = '*' then
      match rest with
      | c2 :: rest2 =>
        if c2 = '*' then some ([], rest2)
        else (findCloseBold rest).map (fun pr => (c :: pr.1, pr.2))
      | [] => none
    else if c = '\n' then none
    else (findCloseBold rest).map (fun pr => (c :: pr.1, pr.2))

def boldMatchAt : Str → Option (Str × Str)
  | c1 :: c2 :: rest => if c1 = '*' ∧ c2 = '*' then findCloseBold rest else none
  | _ => none

def findBold : Str → Option (Str × Str × Str)
  | [] => none
  | c :: cs =>
    match boldMatchAt (c :: cs) with
    | some (t, rest) => some ([], strongOpen ++ t ++ strongClose, rest)
    | none => (findBold cs).map (fun pr => (c :: pr.1, pr.2.1, pr.2.2))

/-- Lazy closing search for the italics regex of script.js line 174. -/
def findCloseEm : Str → Option (Str × Str)
  | [] => none
  | c :: rest =>
    if c = '*' then some ([], rest)
    else if c = '\n' then none
    else (findCloseEm rest).map (fun pr => (c :: pr.1, pr.2))

def emMatchAt : Str → Option (Str × Str)
  | c :: rest => if c = '*' then findCloseEm rest else none
  | [] => none

def findEm : Str → Option (Str × Str × Str)
  | [] => none
  | c :: cs =>
    match emMatchAt (c :: cs) with
    | some (t, rest) => some ([], emOpen ++ t ++ emClose, rest)
    | none => (findEm cs).map (fun pr => (c :: pr.1, pr.2.1, pr.2.2))

def findBr : Str → Option (Str × Str × Str)
  | [] => none
  | c :: cs =>
    if c = '\n' then some ([], brTag, cs)
    else (findBr cs).map (fun pr => (c :: pr.1, pr.2.1, pr.2.2))

/-! ## The two formatMessage pipelines -/

def replaceBookR (s : Str) : Str := rewriteAll findBookR s
def replaceBookW (s : Str) : Str := rewriteAll findBookW s
def replacePrice (s : Str) : Str := rewriteAll findPrice s
def replaceRatingR (s : Str) : Str := rewriteAll findRatingR s
def replaceRatingW (s : Str) : Str := rewriteAll findRatingW s
def replaceBold (s : Str) : Str := rewriteAll findBold s
def replaceEm (s : Str) : Str := rewriteAll findEm s
def replaceBr (s : Str) : Str := rewriteAll findBr s

/-- formatMessage of Message.js (lines 228-245): book-link substitution,
then price substitution, then rating substitution, each one scanning
the output of the previous one. -/
def formatMessageR (s : Str) : Str :=
  replaceRatingR (replacePrice (replaceBookR s))

/-- formatMessage of script.js (lines 170-191): bold, italics, line
breaks, book links, ratings, then prices, each substitution scanning
the output of the previous one.  Note the rating substitution runs
before the price substitution in this variant. -/
def formatMessageW (s : Str) : Str :=
  replacePrice (replaceRatingW (replaceBookW (replaceBr (replaceEm (replaceBold s)))))

/-! ## Token extraction from the produced markup

A BookReference token corresponds to an occurrence of the book-link
span; its title is the argument placed into the click handler.  A Price
token corresponds to an occurrence of the price-highlight span; its
amount is the text after the inserted dollar sign.  A Rating token
corresponds to an occurrence of the star-wrapper span. -/

def bookTitlesAux (opener : Str) : Nat → Str → List Str
  | 0, _ => []
  | _, [] => []
  | n + 1, c :: cs =>
    if hasPrefixL opener (c :: cs) then
      (((c :: cs).drop opener.length).takeWhile (fun c => !(c == '\''))) ::
        bookTitlesAux opener n (((c :: cs).drop opener.length).dropWhile (fun c => !(c == '\'')))
    else bookTitlesAux opener n cs

/-- Titles of the BookReference tokens in Message.js output. -/
def bookTitlesR (s : Str) : List Str := bookTitlesAux bookOpenR s.length s

/-- Titles of the BookReference tokens in script.js output. -/
def bookTitlesW (s : Str) : List Str := bookTitlesAux bookOpenW s.length s

def priceAmountsAux : Nat → Str → List Str
  | 0, _ => []
  | _, [] => []
  | n + 1, c :: cs =>
    if hasPrefixL priceOpen (c :: cs) then
      (((c :: cs).drop (priceOpen.length + 1)).takeWhile (fun c => !(c == '<'))) ::
        priceAmountsAux n (((c :: cs).drop (priceOpen.length + 1)).dropWhile (fun c => !(c == '<')))
    else priceAmountsAux n cs

/-- Amounts of the Price tokens in a formatMessage output. -/
def priceAmounts (s : Str) : List Str := priceAmountsAux s.length s

/-- Number of Rating tokens in Message.js output. -/
def ratingCountR (s : Str) : Nat := countOccur starOpenR s

/-- Number of Rating tokens in script.js output. -/
def ratingCountW (s : Str) : Nat := countOccur starOpenW s

/-! ## Chat controller and session state

sendMessage of script.js (lines 88-128): if the trimmed input is empty
or the busy flag isLoading is set, return without doing anything;
otherwise append the user message, set the busy flag, issue exactly one
chat request, and on completion append either the bot message built
from the response or the fixed fallback message, clearing the busy
flag.  The asynchronous round trip is collapsed into a step function
taking the eventual outcome of the request (some response, or none for
a network/HTTP/decode failure); the second component of the result
counts the chat requests the call issued.

sendMessage of the React useChat hook (src/unnamed/part_000 lines
81-89 with the mutation callbacks of lines 41-78): only the
non-emptiness of the trimmed text is checked; the mutation then appends
the raw user message, sets isLoading, and on settlement appends the bot
or fallback message and clears isLoading.  There is no busy-flag check
inside the hook; the React UI guard lives in ChatArea.handleSend
(ChatArea.js lines 156-159), modelled as handleSendReact. -/

inductive Sender
  | user
  | bot
deriving DecidableEq, Repr

structure Msg where
  sender : Sender
  text : Str
  intent : Option Str
deriving DecidableEq, Repr

structure ChatResponse where
  response : Str
  intent : Str
deriving DecidableEq, Repr

def fallbackText : Str := "Sorry, I encountered an error. Please try again.".data

def greetingText : Str := "Hello! I'm your personal book assistant. I can help you find books, get recommendations, check prices, ratings, and availability. What would you like to know about books today?".data

def newSessionText : Str := "New session started! How can I help you with books today?".data

structure WebSt where
  messages : List Msg
  isLoading : Bool
  sessionId : Str
deriving DecidableEq, Repr

def sendMessageWeb (st : WebSt) (input : Str) (result : Option ChatResponse) :
    WebSt × Nat :=
  let message := trimStr input
  if message.isEmpty || st.isLoading then (st, 0)
  else
    let st1 : WebSt :=
      { st with messages := st.messages ++ [⟨Sender.user, message, none⟩], isLoading := true }
    match result with
    | some resp =>
      ({ st1 with
          messages := st1.messages ++ [⟨Sender.bot, resp.response, some resp.intent⟩],
          isLoading := false }, 1)
    | none =>
      ({ st1 with
          messages := st1.messages ++ [⟨Sender.bot, fallbackText, none⟩],
          isLoading := false }, 1)

structure ReactChatSt where
  messages : List Msg
  isLoading : Bool
  sessionId : Str
deriving DecidableEq, Repr

def sendMessageReact (st : ReactChatSt) (input : Str) (result : Option ChatResponse) :
    ReactChatSt × Nat :=
  if (trimStr input).isEmpty then (st, 0)
  else
    let st1 : ReactChatSt :=
      { st with messages := st.messages ++ [⟨Sender.user, input, none⟩], isLoading := true }
    match result with
    | some resp =>
      ({ st1 with
          messages := st1.messages ++ [⟨Sender.bot, resp.response, some resp.intent⟩],
          isLoading := false }, 1)
    | none =>
      ({ st1 with
          messages := st1.messages ++ [⟨Sender.bot, fallbackText, none⟩],
          isLoading := false }, 1)

/-- handleSend of ChatArea.js lines 156-159: the UI send entry point
only forwards to the hook when the trimmed input is non-empty and the
loading flag is clear, and it forwards the trimmed text. -/
def handleSendReact (st : ReactChatSt) (input : Str) (result : Option ChatResponse) :
    ReactChatSt × Nat :=
  if !(trimStr input).isEmpty && !st.isLoading then
    sendMessageReact st (trimStr input) result
  else (st, 0)

/-- generateSessionId of script.js line 18 (the useChat hook builds the
same shape at part_000 line 15): the text session_ then the current
time then an underscore then a random suffix; the time and the suffix
are environment inputs here. -/
def generateSessionId (now rand : Str) : Str :=
  "session_".data ++ now ++ '_' :: rand

/-- clearChat of script.js lines 456-471: the transcript becomes the
single greeting message; the session id is untouched. -/
def clearChatWeb (st : WebSt) : WebSt :=
  { st with messages := [⟨Sender.bot, greetingText, none⟩] }

/-- newSession of script.js lines 473-477: generate a fresh session id,
clear the chat, then append the new-session bot message. -/
def newSessionWeb (st : WebSt) (now rand : Str) : WebSt :=
  let st1 := { st with sessionId := generateSessionId now rand }
  let st2 := clearChatWeb st1
  { st2 with messages := st2.messages ++ [⟨Sender.bot, newSessionText, none⟩] }

/-- clearChat of the useChat hook (part_000 lines 91-100). -/
def clearChatReact (st : ReactChatSt) : ReactChatSt :=
  { st with messages := [⟨Sender.bot, greetingText, none⟩] }

/-- newSession of the useChat hook (part_000 lines 102-111): the
transcript is replaced by the new-session message only; the hook's
sessionId state has no setter and is never replaced. -/
def newSessionReact (st : ReactChatSt) : ReactChatSt :=
  { st with messages := [⟨Sender.bot, newSessionText, none⟩] }

/-! ## Book-detail flow

showBookDetails of script.js (lines 253-275): set the loading overlay,
issue the book-details request, and on completion either display the
modal for the returned book (displayBookModal adds the show class and
fills in the returned data) or append a bot message that the title
could not be found.  There is no request generation counter: a
completion handler applies its own result unconditionally, so
overlapping lookups resolve to whichever result arrives last.  The
fetched BookDetail payload is abstracted to the title it carries.

handleBookClick of the React App (Header.js source lines 255-263 of
the bundled App) stores the fetched details and opens the modal on
success and only logs on failure: no chat message is appended and no
state changes. -/

structure BookSt where
  messages : List Msg
  isLoading : Bool
  modalOpen : Bool
  displayedTitle : Option Str
deriving DecidableEq, Repr

def notFoundText (title : Str) : Str :=
  "Sorry, I couldn't find details for \"".data ++ title ++ "\".".data

def bookStartWeb (st : BookSt) : BookSt := { st with isLoading := true }

def bookFinishWeb (st : BookSt) (title : Str) (result : Option Str) : BookSt :=
  match result with
  | some d => { st with isLoading := false, modalOpen := true, displayedTitle := some d }
  | none =>
    { st with isLoading := false,
              messages := st.messages ++ [⟨Sender.bot, notFoundText title, none⟩] }

/-- One complete showBookDetails call (start plus its own completion,
with no other activation overlapping). -/
def showBookDetailsWeb (st : BookSt) (title : Str) (result : Option Str) : BookSt :=
  bookFinishWeb (bookStartWeb st) title result

/-- A sequence of successful completions applied in arrival order. -/
def runArrivalsWeb (st : BookSt) : List Str → BookSt
  | [] => st
  | d :: rest => runArrivalsWeb (bookFinishWeb st d (some d)) rest

structure ReactAppSt where
  messages : List Msg
  selectedBook : Option Str
  isModalOpen : Bool
deriving DecidableEq, Repr

def handleBookClickReact (st : ReactAppSt) (result : Option Str) : ReactAppSt :=
  match result with
  | some d => { st with selectedBook := some d, isModalOpen := true }
  | none => st

def runArrivalsReact (st : ReactAppSt) : List Str → ReactAppSt
  | [] => st
  | d :: rest => runArrivalsReact (handleBookClickReact st (some d)) rest

/-! ## Review rendering in the book-detail view

displayBookModal of script.js (lines 351-370) and the Reviews block of
BookModal.js (lines 395-412): reviews.slice(0, 3) is rendered, and each
rendered review shows review_text.substring(0, 200) followed by three
dots; both variants are the same computation. -/

structure Review where
  reviewer_name : Str
  rating_ds : Str
  rating_fs : Str
  review_text : Str
  review_date : Str
  source : Str
deriving DecidableEq, Repr

structure RenderedReview where
  name : Str
  stars : Str
  text : Str
  meta : Str
deriving DecidableEq, Repr

def renderReviewWeb (r : Review) : RenderedReview :=
  { name := r.reviewer_name
    stars := createStarRatingW r.rating_ds r.rating_fs
    text := r.review_text.take 200 ++ "...".data
    meta := r.review_date ++ " - ".data ++ r.source }

def renderReviewReact (r : Review) : RenderedReview :=
  { name := r.reviewer_name
    stars := createStarRatingR r.rating_ds r.rating_fs
    text := r.review_text.take 200 ++ "...".data
    meta := r.review_date ++ " - ".data ++ r.source }

def renderReviewsWeb (reviews : List Review) : List RenderedReview :=
  (reviews.take 3).map renderReviewWeb

def renderReviewsReact (reviews : List Review) : List RenderedReview :=
  (reviews.take 3).map renderReviewReact

/-! ## Absence of matches, via sliding-window predicates

noWin2 p s holds when no two adjacent characters of s satisfy p;
noWin3 p s when no three adjacent characters satisfy p.  A price match
requires a dollar sign followed by a digit somewhere; a rating match
requires a digit, a slash and a five in adjacent positions; a book-link
or price-highlight span occurrence begins with the two characters less-
than and the letter s. -/

def noWin2 (p : Char → Char → Bool) : Str → Bool
  | c1 :: c2 :: rest => !p c1 c2 && noWin2 p (c2 :: rest)
  | _ => true

def noWin3 (p : Char → Char → Char → Bool) : Str → Bool
  | c1 :: c2 :: c3 :: rest => !p c1 c2 c3 && noWin3 p (c2 :: c3 :: rest)
  | _ => true

def pPM (c1 c2 : Char) : Bool := c1 == '$' && c2.isDigit

def pRM (c1 c2 c3 : Char) : Bool := c1.isDigit && c2 == '/' && c3 == '5'

def pLtS (c1 c2 : Char) : Bool := c1 == '<' && c2 == 's'

/-- No price match can start anywhere in s. -/
def noPM (s : Str) : Bool := noWin2 pPM s

/-- No rating match can end anywhere in s. -/
def noRM (s : Str) : Bool := noWin3 pRM s

/-- No span opener (a less-than followed by the letter s) occurs in s. -/
def noLtS (s : Str) : Bool := noWin2 pLtS s

/-- A plain-text segment for the amended book-reference property: no
asterisk (no emphasis marker), no markup characters that collide with
the generated span (less-than, apostrophe), no start of a price match
(dollar followed by digit) and no end of a rating match (digit, slash,
five). -/
def plainSeg (s : Str) : Bool :=
  s.all (fun c => !(c == '*') && !(c == '<') && !(c == '\'')) && (noPM s && noRM s)

/-- The text of a price amount with integer digits ds and optional
fraction digits fs, as matched by the price regex. -/
def amountStr (ds fs : Str) : Str :=
  if fs.isEmpty then ds else ds ++ '.' :: fs

/-! ## List helper lemmas -/

theorem takeWhile_append_allSat {p : Char → Bool} (t u : Str)
    (h : ∀ c ∈ t, p c = true) : (t ++ u).takeWhile p = t ++ u.takeWhile p := by
  induction t with
  | nil => simp
  | cons c t ih =>
    have hc : p c = true := h c (by simp)
    simp only [List.cons_append, List.takeWhile_cons, hc]
    simp [ih (fun d hd => h d (by simp [hd]))]

theorem dropWhile_append_allSat {p : Char → Bool} (t u : Str)
    (h : ∀ c ∈ t, p c = true) : (t ++ u).dropWhile p = u.dropWhile p := by
  induction t with
  | nil => simp
  | cons c t ih =>
    have hc : p c = true := h c (by simp)
    simp only [List.cons_append, List.dropWhile_cons, hc]
    simp [ih (fun d hd => h d (by simp [hd]))]

theorem takeWhile_head_false {p : Char → Bool} (c : Char) (u : Str)
    (h : p c = false) : (c :: u).takeWhile p = [] := by
  simp [List.takeWhile_cons, h]

theorem dropWhile_head_false {p : Char → Bool} (c : Char) (u : Str)
    (h : p c = false) : (c :: u).dropWhile p = c :: u := by
  simp [List.dropWhile_cons, h]

theorem hasPrefixL_append (p u : Str) : hasPrefixL p (p ++ u) = true := by
  induction p with
  | nil => rfl
  | cons c p ih => simp [hasPrefixL, ih]

theorem mem_takeWhile_sat {p : Char → Bool} {s : Str} {c : Char}
    (h : c ∈ s.takeWhile p) : p c = true := by
  induction s with
  | nil => simp [List.takeWhile] at h
  | cons d s ih =>
    rw [List.takeWhile_cons] at h
    by_cases hd : p d = true
    · simp [hd] at h
      rcases h with h | h
      · exact h ▸ hd
      · exact ih h
    · simp [Bool.not_eq_true] at hd
      simp [hd] at h


theorem noWin2_cons {p : Char → Char → Bool} {c1 c2 : Char} {rest : Str}
    (h : noWin2 p (c1 :: c2 :: rest) = true) :
    p c1 c2 = false ∧ noWin2 p (c2 :: rest) = true := by
  simpa [noWin2, Bool.and_eq_true] using h

theorem noWin3_cons {p : Char → Char → Char → Bool} {c1 c2 c3 : Char} {rest : Str}
    (h : noWin3 p (c1 :: c2 :: c3 :: rest) = true) :
    p c1 c2 c3 = false ∧ noWin3 p (c2 :: c3 :: rest) = true := by
  simpa [noWin3, Bool.and_eq_true] using h

theorem noWin2_append_head {p : Char → Char → Bool} (a b : Str)
    (ha : noWin2 p a = true) (hb : noWin2 p b = true)
    (h : ∀ c cs, b = c :: cs → ∀ x, p x c = false) :
    noWin2 p (a ++ b) = true := by
  induction a with
  | nil => simpa using hb
  | cons c a ih =>
    cases a with
    | nil =>
      cases b with
      | nil => rfl
      | cons y bs =>
        simp only [List.nil_append, List.cons_append, noWin2]
        simp [h y bs rfl c, hb]
    | cons c2 a' =>
      have hh := noWin2_cons ha
      simp only [List.cons_append, noWin2]
      have := ih hh.2
      simp only [List.cons_append] at this
      simp [hh.1, this]

theorem noWin2_append_last {p : Char → Char → Bool} (a b : Str)
    (ha : noWin2 p a = true) (hb : noWin2 p b = true)
    (h : ∀ c, a.getLast? = some c → ∀ y, p c y = false) :
    noWin2 p (a ++ b) = true := by
  induction a with
  | nil => simpa using hb
  | cons c a ih =>
    cases a with
    | nil =>
      cases b with
      | nil => rfl
      | cons y bs =>
        simp only [List.nil_append, List.cons_append, noWin2]
        simp [h c rfl y, hb]
    | cons c2 a' =>
      have hh := noWin2_cons ha
      have hlast : (c2 :: a').getLast? = (c :: c2 :: a').getLast? := by
        simp [List.getLast?_cons_cons]
      simp only [List.cons_append, noWin2]
      have := ih hh.2 (fun d hd y => h d (hlast ▸ hd) y)
      simp only [List.cons_append] at this
      simp [hh.1, this]

theorem noWin3_append_head {p : Char → Char → Char → Bool} (a b : Str)
    (ha : noWin3 p a = true) (hb : noWin3 p b = true)
    (h : ∀ c cs, b = c :: cs → (∀ x z, p x c z = false) ∧ (∀ x y, p x y c = false)) :
    noWin3 p (a ++ b) = true := by
  induction a with
  | nil => simpa using hb
  | cons c a ih =>
    cases a with
    | nil =>
      cases b with
      | nil => rfl
      | cons y bs =>
        cases bs with
        | nil => rfl
        | cons z bs' =>
          simp only [List.nil_append, List.cons_append, noWin3]
          simp [(h y (z :: bs') rfl).1 c z, hb]
    | cons c2 a' =>
      cases a' with
      | nil =>
        cases b with
        | nil => simpa using ha
        | cons z bs =>
          simp only [List.cons_append, List.nil_append, noWin3, Bool.and_eq_true]
          refine And.intro ?_ ?_
          · simp [(h z bs rfl).2 c c2]
          · have := ih (by rfl)
            simpa using this
      | cons c3 a'' =>
        have hh := noWin3_cons ha
        simp only [List.cons_append, noWin3]
        have := ih hh.2
        simp only [List.cons_append] at this
        simp [hh.1, this]

theorem noWin3_append_last {p : Char → Char → Char → Bool} (a b : Str)
    (ha : noWin3 p a = true) (hb : noWin3 p b = true)
    (h : ∀ c, a.getLast? = some c → (∀ y z, p c y z = false) ∧ (∀ x z, p x c z = false)) :
    noWin3 p (a ++ b) = true := by
  induction a with
  | nil => simpa using hb
  | cons c a ih =>
    cases a with
    | nil =>
      cases b with
      | nil => rfl
      | cons y bs =>
        cases bs with
        | nil => rfl
        | cons z bs' =>
          simp only [List.nil_append, List.cons_append, noWin3]
          simp [(h c rfl).1 y z, hb]
    | cons c2 a' =>
      cases a' with
      | nil =>
        cases b with
        | nil => simpa using ha
        | cons z bs =>
          have h2 : ([c, c2] : Str).getLast? = some c2 := rfl
          simp only [List.cons_append, List.nil_append, noWin3, Bool.and_eq_true]
          refine And.intro ?_ ?_
          · simp [(h c2 h2).2 c z]
          · have := ih (by rfl) (fun d hd => h d (by simpa using hd))
            simpa using this
      | cons c3 a'' =>
        have hh := noWin3_cons ha
        have hlast : (c2 :: c3 :: a'').getLast? = (c :: c2 :: c3 :: a'').getLast? := by
          simp [List.getLast?_cons_cons]
        simp only [List.cons_append, noWin3]
        have := ih hh.2 (fun d hd => h d (hlast ▸ hd))
        simp only [List.cons_append] at this
        simp [hh.1, this]

/-! ## No-match lemmas for the rule matchers -/

theorem noWin2_tail {p : Char → Char → Bool} {c : Char} {s : Str}
    (h : noWin2 p (c :: s) = true) : noWin2 p s = true := by
  cases s with
  | nil => rfl
  | cons c2 s' =>
    cases s' with
    | nil => rfl
    | cons c3 s'' => exact (noWin2_cons h).2

theorem noWin3_tail {p : Char → Char → Char → Bool} {c : Char} {s : Str}
    (h : noWin3 p (c :: s) = true) : noWin3 p s = true := by
  cases s with
  | nil => rfl
  | cons c2 s' =>
    cases s' with
    | nil => rfl
    | cons c3 s'' => exact (noWin3_cons h).2

theorem rewriteAux_noMatch {find : Str → Option (Str × Str × Str)} {s : Str}
    (h : find s = none) : ∀ n, rewriteAux find n s = s := by
  intro n
  cases n with
  | zero => rfl
  | succ m => simp [rewriteAux, h]

theorem bookMatch_none {c : Char} {cs : Str} (h : ¬c = '*') :
    bookMatch (c :: cs) = none := by
  cases cs with
  | nil => rfl
  | cons c2 rest =>
    simp only [bookMatch]
    rw [if_neg]
    intro hand
    exact h hand.1

theorem findBookR_none_of_starFree {s : Str} (h : ∀ c ∈ s, ¬c = '*') :
    findBookR s = none := by
  induction s with
  | nil => rfl
  | cons c cs ih =>
    simp only [findBookR, bookMatch_none (h c (by simp)),
      ih (fun d hd => h d (by simp [hd]))]
    rfl

theorem findBookW_none_of_starFree {s : Str} (h : ∀ c ∈ s, ¬c = '*') :
    findBookW s = none := by
  induction s with
  | nil => rfl
  | cons c cs ih =>
    simp only [findBookW, bookMatch_none (h c (by simp)),
      ih (fun d hd => h d (by simp [hd]))]
    rfl

theorem priceMatchAt_none {c : Char} {cs : Str} (h : noPM (c :: cs) = true) :
    priceMatchAt (c :: cs) = none := by
  by_cases hc : c = '$'
  · subst hc
    cases cs with
    | nil => rfl
    | cons d rest =>
      have hw := (noWin2_cons h).1
      have hd : d.isDigit = false := by
        simpa [pPM] using hw
      simp [priceMatchAt, takeWhile_head_false d rest hd]
  · cases cs with
    | nil => simp [priceMatchAt, hc]
    | cons d rest => simp [priceMatchAt, hc]

theorem findPrice_none_of_noPM {s : Str} (h : noPM s = true) :
    findPrice s = none := by
  induction s with
  | nil => rfl
  | cons c cs ih =>
    simp only [findPrice, priceMatchAt_none h, ih (noWin2_tail h)]
    rfl

theorem noRM_no_triple (u v : Str) (d : Char) (hd : d.isDigit = true) :
    noRM (u ++ d :: '/' :: '5' :: v) = false := by
  induction u with
  | nil =>
    simp only [List.nil_append, noRM, noWin3, pRM, hd]
    simp
  | cons c u ih =>
    by_contra hcon
    rw [Bool.not_eq_false] at hcon
    have : noRM (u ++ d :: '/' :: '5' :: v) = true := by
      have := noWin3_tail (p := pRM) (c := c) (s := u ++ d :: '/' :: '5' :: v)
      exact this hcon
    rw [ih] at this
    exact Bool.false_ne_true this


theorem ratingMatchAt_none_of_noRM {s : Str} (h : noRM s = true) :
    ratingMatchAt s = none := by
  rcases hds : s.takeWhile Char.isDigit with _ | ⟨d, ds'⟩
  · simp [ratingMatchAt, hds]
  · have hsplit : (d :: ds') ++ s.dropWhile Char.isDigit = s := by
      rw [← hds]; exact List.takeWhile_append_dropWhile Char.isDigit s
    rcases hr1 : s.dropWhile Char.isDigit with _ | ⟨e, r2⟩
    · simp [ratingMatchAt, hds, hr1]
    · have hs0 : s = (d :: ds') ++ e :: r2 := by rw [← hsplit, hr1]
      by_cases he : e = '.'
      · subst he
        rcases hfs : r2.takeWhile Char.isDigit with _ | ⟨f, fs'⟩
        · simp [ratingMatchAt, hds, hr1, hfs]
        · have hr2 : r2 = (f :: fs') ++ r2.dropWhile Char.isDigit := by
            rw [← hfs]; exact (List.takeWhile_append_dropWhile Char.isDigit r2).symm
          have hsf : slashFive (r2.dropWhile Char.isDigit) = none := by
            rcases hq : r2.dropWhile Char.isDigit with _ | ⟨q1, q'⟩
            · rfl
            · rcases q' with _ | ⟨q2, q''⟩
              · rfl
              · simp only [slashFive]
                rw [if_neg]
                intro hqq
                rcases List.eq_nil_or_concat (f :: fs') with hcon | ⟨fsI, fL, hcon⟩
                · simp at hcon
                · have hfl : fL.isDigit = true := by
                    refine mem_takeWhile_sat (p := Char.isDigit) (s := r2) ?_
                    rw [hfs, hcon]
                    simp [List.concat_eq_append]
                  have hs2 : s = ((d :: ds') ++ '.' :: fsI) ++ fL :: '/' :: '5' :: q'' := by
                    rw [hs0, hr2, hq, hqq.1, hqq.2, hcon]
                    simp [List.concat_eq_append]
                  have hfalse := noRM_no_triple ((d :: ds') ++ '.' :: fsI) q'' fL hfl
                  rw [← hs2] at hfalse
                  rw [hfalse] at h
                  exact Bool.false_ne_true h
          simp [ratingMatchAt, hds, hr1, hfs, hsf]
      · have hsf : slashFive (e :: r2) = none := by
          rcases r2 with _ | ⟨e2, r2'⟩
          · rfl
          · simp only [slashFive]
            rw [if_neg]
            intro hqq
            rcases List.eq_nil_or_concat (d :: ds') with hcon | ⟨dsI, dL, hcon⟩
            · simp at hcon
            · have hdl : dL.isDigit = true := by
                refine mem_takeWhile_sat (p := Char.isDigit) (s := s) ?_
                rw [hds, hcon]
                simp [List.concat_eq_append]
              have hs2 : s = dsI ++ dL :: '/' :: '5' :: r2' := by
                rw [hs0, hcon, hqq.1, hqq.2]
                simp [List.concat_eq_append]
              have hfalse := noRM_no_triple dsI r2' dL hdl
              rw [← hs2] at hfalse
              rw [hfalse] at h
              exact Bool.false_ne_true h
        simp [ratingMatchAt, hds, hr1, if_neg he, hsf]

theorem findRatingR_none_of_noRM {s : Str} (h : noRM s = true) :
    findRatingR s = none := by
  induction s with
  | nil => rfl
  | cons c cs ih =>
    simp only [findRatingR, ratingMatchAt_none_of_noRM h, ih (noWin3_tail h)]
    rfl

theorem findRatingW_none_of_noRM {s : Str} (h : noRM s = true) :
    findRatingW s = none := by
  induction s with
  | nil => rfl
  | cons c cs ih =>
    simp only [findRatingW, ratingMatchAt_none_of_noRM h, ih (noWin3_tail h)]
    rfl

/-! ## Window-predicate helpers for concrete boundary characters -/

theorem pPM_left_false {c : Char} (h : ¬c = '$') (y : Char) : pPM c y = false := by
  simp [pPM, beq_eq_false_iff_ne.mpr h]

theorem pPM_right_false {c : Char} (h : c.isDigit = false) (x : Char) : pPM x c = false := by
  simp [pPM, h]

theorem pRM_fst_false {c : Char} (h : c.isDigit = false) (y z : Char) : pRM c y z = false := by
  simp [pRM, h]

theorem pRM_snd_false {c : Char} (h : ¬c = '/') (x z : Char) : pRM x c z = false := by
  simp [pRM, beq_eq_false_iff_ne.mpr h]

theorem pRM_trd_false {c : Char} (h : ¬c = '5') (x y : Char) : pRM x y c = false := by
  simp [pRM, beq_eq_false_iff_ne.mpr h]

theorem pLtS_left_false {c : Char} (h : ¬c = '<') (y : Char) : pLtS c y = false := by
  simp [pLtS, beq_eq_false_iff_ne.mpr h]

theorem pLtS_right_false {c : Char} (h : ¬c = 's') (x : Char) : pLtS x c = false := by
  simp [pLtS, beq_eq_false_iff_ne.mpr h]

theorem noLtS_of_no_lt {s : Str} (h : ∀ c ∈ s, ¬c = '<') : noLtS s = true := by
  induction s with
  | nil => rfl
  | cons c cs ih =>
    cases cs with
    | nil => rfl
    | cons c2 cs' =>
      have hrest := ih (fun d hd => h d (by simp [hd]))
      simp only [noLtS, noWin2] at hrest ⊢
      simp [pLtS_left_false (h c (by simp)) c2, hrest]

theorem noRM_of_no_slash {s : Str} (h : ∀ c ∈ s, ¬c = '/') : noRM s = true := by
  induction s with
  | nil => rfl
  | cons c cs ih =>
    cases cs with
    | nil => rfl
    | cons c2 cs' =>
      cases cs' with
      | nil => rfl
      | cons c3 cs'' =>
        have hrest := ih (fun d hd => h d (by simp [hd]))
        simp only [noRM, noWin3] at hrest ⊢
        simp [pRM_snd_false (h c2 (by simp)) c c3, hrest]

theorem noPM_of_no_dollar {s : Str} (h : ∀ c ∈ s, ¬c = '$') : noPM s = true := by
  induction s with
  | nil => rfl
  | cons c cs ih =>
    cases cs with
    | nil => rfl
    | cons c2 cs' =>
      have hrest := ih (fun d hd => h d (by simp [hd]))
      simp only [noPM, noWin2] at hrest ⊢
      simp [pPM_left_false (h c (by simp)) c2, hrest]

/-! ## The leftmost book match on a string with a single marker pair -/

theorem bookMatch_at_pair (t post : Str) (ht : ∀ c ∈ t, ¬c = '*') (htne : t ≠ []) :
    bookMatch ('*' :: '*' :: (t ++ '*' :: '*' :: post)) = some (t, post) := by
  have htake : (t ++ '*' :: '*' :: post).takeWhile (fun c => !(c == '*')) = t := by
    rw [takeWhile_append_allSat t _ (fun c hc => by
      simp [beq_eq_false_iff_ne.mpr (ht c hc)])]
    simp [List.takeWhile_cons]
  have hdrop : (t ++ '*' :: '*' :: post).dropWhile (fun c => !(c == '*')) =
      '*' :: '*' :: post := by
    rw [dropWhile_append_allSat t _ (fun c hc => by
      simp [beq_eq_false_iff_ne.mpr (ht c hc)])]
    simp [List.dropWhile_cons]
  rcases t with _ | ⟨t0, t'⟩
  · exact absurd rfl htne
  · simp only [List.cons_append] at htake hdrop
    simp [bookMatch, htake, hdrop]

theorem findBookR_single (pre t post : Str) (hpre : ∀ c ∈ pre, ¬c = '*')
    (ht : ∀ c ∈ t, ¬c = '*') (htne : t ≠ []) :
    findBookR (pre ++ '*' :: '*' :: (t ++ '*' :: '*' :: post)) =
      some (pre, bookSpanR t, post) := by
  induction pre with
  | nil =>
    simp [findBookR, bookMatch_at_pair t post ht htne]
  | cons c pre' ih =>
    have hc : ¬c = '*' := hpre c (by simp)
    have := ih (fun d hd => hpre d (by simp [hd]))
    simp [findBookR, bookMatch_none hc, this]

theorem findBookW_single (pre t post : Str) (hpre : ∀ c ∈ pre, ¬c = '*')
    (ht : ∀ c ∈ t, ¬c = '*') (htne : t ≠ []) :
    findBookW (pre ++ '*' :: '*' :: (t ++ '*' :: '*' :: post)) =
      some (pre, bookSpanW t, post) := by
  induction pre with
  | nil =>
    simp [findBookW, bookMatch_at_pair t post ht htne]
  | cons c pre' ih =>
    have hc : ¬c = '*' := hpre c (by simp)
    have := ih (fun d hd => hpre d (by simp [hd]))
    simp [findBookW, bookMatch_none hc, this]

theorem replace_single_generic {find : Str → Option (Str × Str × Str)}
    {s pre rep post : Str} (hfind : find s = some (pre, rep, post))
    (hpost : find post = none) (hpos : 0 < s.length) :
    rewriteAll find s = pre ++ rep ++ post := by
  obtain ⟨m, hm⟩ : ∃ m, s.length = m + 1 := ⟨s.length - 1, by omega⟩
  unfold rewriteAll
  rw [hm]
  simp [rewriteAux, hfind, rewriteAux_noMatch hpost m]

theorem replaceBookR_single (pre t post : Str) (hpre : ∀ c ∈ pre, ¬c = '*')
    (ht : ∀ c ∈ t, ¬c = '*') (htne : t ≠ []) (hpost : ∀ c ∈ post, ¬c = '*') :
    replaceBookR (pre ++ '*' :: '*' :: (t ++ '*' :: '*' :: post)) =
      pre ++ bookSpanR t ++ post := by
  refine replace_single_generic (findBookR_single pre t post hpre ht htne)
    (findBookR_none_of_starFree hpost) ?_
  simp

/-! ## The substituted book span allows no price or rating match -/

theorem replacePrice_id {s : Str} (h : noPM s = true) : replacePrice s = s :=
  rewriteAux_noMatch (findPrice_none_of_noPM h) _

theorem replaceRatingR_id {s : Str} (h : noRM s = true) : replaceRatingR s = s :=
  rewriteAux_noMatch (findRatingR_none_of_noRM h) _

theorem replaceRatingW_id {s : Str} (h : noRM s = true) : replaceRatingW s = s :=
  rewriteAux_noMatch (findRatingW_none_of_noRM h) _

theorem replaceBookR_id {s : Str} (h : ∀ c ∈ s, ¬c = '*') : replaceBookR s = s :=
  rewriteAux_noMatch (findBookR_none_of_starFree h) _

theorem replaceBookW_id {s : Str} (h : ∀ c ∈ s, ¬c = '*') : replaceBookW s = s :=
  rewriteAux_noMatch (findBookW_none_of_starFree h) _

theorem noPM_bookSpan (pre t post : Str) (hpre : noPM pre = true) (ht : noPM t = true)
    (hpost : noPM post = true) : noPM (pre ++ bookSpanR t ++ post) = true := by
  have h1 : noPM (closeSpan ++ post) = true := by
    refine noWin2_append_last _ _ (by decide) hpost ?_
    intro c hc y
    have hg : closeSpan.getLast? = some '>' := by decide
    rw [hg] at hc
    injection hc with hc
    subst hc
    exact pPM_left_false (by decide) y
  have h2 : noPM (t ++ (closeSpan ++ post)) = true := by
    refine noWin2_append_head _ _ ht h1 ?_
    intro c cs hc x
    have hcs : closeSpan ++ post = '<' :: ("/span>".data ++ post) := rfl
    rw [hcs] at hc
    injection hc with hc1 hc2
    rw [← hc1]
    exact pPM_right_false (by decide) x
  have h3 : noPM (bookMidR ++ (t ++ (closeSpan ++ post))) = true := by
    refine noWin2_append_last _ _ (by decide) h2 ?_
    intro c hc y
    have hg : bookMidR.getLast? = some '>' := by decide
    rw [hg] at hc
    injection hc with hc
    subst hc
    exact pPM_left_false (by decide) y
  have h4 : noPM (t ++ (bookMidR ++ (t ++ (closeSpan ++ post)))) = true := by
    refine noWin2_append_head _ _ ht h3 ?_
    intro c cs hc x
    have hcs : bookMidR ++ (t ++ (closeSpan ++ post)) =
        '\'' :: (")\">".data ++ (t ++ (closeSpan ++ post))) := rfl
    rw [hcs] at hc
    injection hc with hc1 hc2
    rw [← hc1]
    exact pPM_right_false (by decide) x
  have h5 : noPM (bookOpenR ++ (t ++ (bookMidR ++ (t ++ (closeSpan ++ post))))) = true := by
    refine noWin2_append_last _ _ (by decide) h4 ?_
    intro c hc y
    have hg : bookOpenR.getLast? = some '\'' := by decide
    rw [hg] at hc
    injection hc with hc
    subst hc
    exact pPM_left_false (by decide) y
  have h6 : noPM (pre ++ (bookOpenR ++ (t ++ (bookMidR ++ (t ++ (closeSpan ++ post)))))) =
      true := by
    refine noWin2_append_head _ _ hpre h5 ?_
    intro c cs hc x
    have hcs : bookOpenR ++ (t ++ (bookMidR ++ (t ++ (closeSpan ++ post)))) =
        '<' :: ("span class=\"book-link\" onclick=\"window.handleBookClick('".data ++
          (t ++ (bookMidR ++ (t ++ (closeSpan ++ post))))) := rfl
    rw [hcs] at hc
    injection hc with hc1 hc2
    rw [← hc1]
    exact pPM_right_false (by decide) x
  simpa [bookSpanR, List.append_assoc] using h6

theorem noRM_bookSpan (pre t post : Str) (hpre : noRM pre = true) (ht : noRM t = true)
    (hpost : noRM post = true) : noRM (pre ++ bookSpanR t ++ post) = true := by
  have h1 : noRM (closeSpan ++ post) = true := by
    refine noWin3_append_last _ _ (by decide) hpost ?_
    intro c hc
    have hg : closeSpan.getLast? = some '>' := by decide
    rw [hg] at hc
    injection hc with hc
    subst hc
    exact ⟨fun y z => pRM_fst_false (by decide) y z, fun x z => pRM_snd_false (by decide) x z⟩
  have h2 : noRM (t ++ (closeSpan ++ post)) = true := by
    refine noWin3_append_head _ _ ht h1 ?_
    intro c cs hc
    have hcs : closeSpan ++ post = '<' :: ("/span>".data ++ post) := rfl
    rw [hcs] at hc
    injection hc with hc1 hc2
    rw [← hc1]
    exact ⟨fun x z => pRM_snd_false (by decide) x z, fun x y => pRM_trd_false (by decide) x y⟩
  have h3 : noRM (bookMidR ++ (t ++ (closeSpan ++ post))) = true := by
    refine noWin3_append_last _ _ (by decide) h2 ?_
    intro c hc
    have hg : bookMidR.getLast? = some '>' := by decide
    rw [hg] at hc
    injection hc with hc
    subst hc
    exact ⟨fun y z => pRM_fst_false (by decide) y z, fun x z => pRM_snd_false (by decide) x z⟩
  have h4 : noRM (t ++ (bookMidR ++ (t ++ (closeSpan ++ post)))) = true := by
    refine noWin3_append_head _ _ ht h3 ?_
    intro c cs hc
    have hcs : bookMidR ++ (t ++ (closeSpan ++ post)) =
        '\'' :: (")\">".data ++ (t ++ (closeSpan ++ post))) := rfl
    rw [hcs] at hc
    injection hc with hc1 hc2
    rw [← hc1]
    exact ⟨fun x z => pRM_snd_false (by decide) x z, fun x y => pRM_trd_false (by decide) x y⟩
  have h5 : noRM (bookOpenR ++ (t ++ (bookMidR ++ (t ++ (closeSpan ++ post))))) = true := by
    refine noWin3_append_last _ _ (by decide) h4 ?_
    intro c hc
    have hg : bookOpenR.getLast? = some '\'' := by decide
    rw [hg] at hc
    injection hc with hc
    subst hc
    exact ⟨fun y z => pRM_fst_false (by decide) y z, fun x z => pRM_snd_false (by decide) x z⟩
  have h6 : noRM (pre ++ (bookOpenR ++ (t ++ (bookMidR ++ (t ++ (closeSpan ++ post)))))) =
      true := by
    refine noWin3_append_head _ _ hpre h5 ?_
    intro c cs hc
    have hcs : bookOpenR ++ (t ++ (bookMidR ++ (t ++ (closeSpan ++ post)))) =
        '<' :: ("span class=\"book-link\" onclick=\"window.handleBookClick('".data ++
          (t ++ (bookMidR ++ (t ++ (closeSpan ++ post))))) := rfl
    rw [hcs] at hc
    injection hc with hc1 hc2
    rw [← hc1]
    exact ⟨fun x z => pRM_snd_false (by decide) x z, fun x y => pRM_trd_false (by decide) x y⟩
  simpa [bookSpanR, List.append_assoc] using h6

/-! ## Extraction lemmas -/

theorem drop_append_cons (a : Str) (c : Char) (b : Str) :
    (a ++ c :: b).drop (a.length + 1) = b := by
  induction a with
  | nil => simp
  | cons x a ih => simpa [List.length_cons, Nat.add_right_comm] using ih

theorem countOccur_zero_of_noLtS (patTail : Str) {u : Str} (h : noLtS u = true) :
    countOccur ('<' :: 's' :: patTail) u = 0 := by
  induction u with
  | nil => rfl
  | cons c cs ih =>
    have hrest := ih (noWin2_tail h)
    have hpref : hasPrefixL ('<' :: 's' :: patTail) (c :: cs) = false := by
      by_cases hc : c = '<'
      · subst hc
        cases cs with
        | nil => simp [hasPrefixL]
        | cons c2 cs' =>
          have hw := (noWin2_cons (p := pLtS) h).1
          have hc2 : (c2 == 's') = false := by
            by_contra hcon
            rw [Bool.not_eq_false, beq_iff_eq] at hcon
            subst hcon
            simp [pLtS] at hw
          simp only [hasPrefixL]
          have : ('s' == c2) = false := by
            rw [beq_eq_false_iff_ne] at hc2 ⊢
            exact fun hn => hc2 hn.symm
          simp [this]
      · simp [hasPrefixL, beq_eq_false_iff_ne.mpr (fun hn => hc hn.symm)]
    simp [countOccur, hpref, hrest]

theorem bookTitlesAux_nil_of_countOccur {opener u : Str}
    (h : countOccur opener u = 0) : ∀ n, bookTitlesAux opener n u = [] := by
  induction u with
  | nil => intro n; cases n <;> rfl
  | cons c cs ih =>
    intro n
    simp only [countOccur] at h
    have hpref : hasPrefixL opener (c :: cs) = false := by
      by_contra hcon
      rw [Bool.not_eq_false] at hcon
      simp [hcon] at h
    have hrest : countOccur opener cs = 0 := by
      simpa [hpref] using h
    cases n with
    | zero => rfl
    | succ m => simp [bookTitlesAux, hpref, ih hrest m]

theorem priceAmountsAux_nil_of_countOccur {u : Str}
    (h : countOccur priceOpen u = 0) : ∀ n, priceAmountsAux n u = [] := by
  induction u with
  | nil => intro n; cases n <;> rfl
  | cons c cs ih =>
    intro n
    simp only [countOccur] at h
    have hpref : hasPrefixL priceOpen (c :: cs) = false := by
      by_contra hcon
      rw [Bool.not_eq_false] at hcon
      simp [hcon] at h
    have hrest : countOccur priceOpen cs = 0 := by
      simpa [hpref] using h
    cases n with
    | zero => rfl
    | succ m => simp [priceAmountsAux, hpref, ih hrest m]

theorem bookTitlesAux_skip {patTail pre u : Str} (hpre : ∀ c ∈ pre, ¬c = '<') (n : Nat) :
    bookTitlesAux ('<' :: 's' :: patTail) (pre.length + n) (pre ++ u) =
      bookTitlesAux ('<' :: 's' :: patTail) n u := by
  induction pre with
  | nil => simp
  | cons c pre' ih =>
    have hc : ¬c = '<' := hpre c (by simp)
    have hpref : hasPrefixL ('<' :: 's' :: patTail) (c :: (pre' ++ u)) = false := by
      simp [hasPrefixL, beq_eq_false_iff_ne.mpr (fun hn => hc hn.symm)]
    have harith : (c :: pre').length + n = (pre'.length + n) + 1 := by
      simp [List.length_cons]
      omega
    rw [harith]
    simp only [List.cons_append, bookTitlesAux, List.append_eq]
    rw [hpref]
    simpa using ih (fun d hd => hpre d (by simp [hd]))

theorem bookTitlesAux_hit (patTail u : Str) (n : Nat) :
    bookTitlesAux ('<' :: 's' :: patTail) (n + 1) (('<' :: 's' :: patTail) ++ u) =
      (u.takeWhile (fun c => !(c == '\''))) ::
        bookTitlesAux ('<' :: 's' :: patTail) n (u.dropWhile (fun c => !(c == '\''))) := by
  have hp : hasPrefixL ('<' :: 's' :: patTail) (('<' :: 's' :: patTail) ++ u) = true :=
    hasPrefixL_append _ _
  have hd : (('<' :: 's' :: patTail) ++ u).drop ('<' :: 's' :: patTail).length = u :=
    List.drop_left _ _
  simp only [List.cons_append] at hp hd ⊢
  simp only [bookTitlesAux, hp, if_true, hd]

theorem noLtS_afterTitle (t post : Str) (ht : ∀ c ∈ t, ¬c = '<')
    (hpost : ∀ c ∈ post, ¬c = '<') :
    noLtS (bookMidR ++ (t ++ (closeSpan ++ post))) = true := by
  have h1 : noLtS (closeSpan ++ post) = true := by
    refine noWin2_append_last _ _ (by decide) (noLtS_of_no_lt hpost) ?_
    intro c hc y
    have hg : closeSpan.getLast? = some '>' := by decide
    rw [hg] at hc
    injection hc with hc
    subst hc
    exact pLtS_left_false (by decide) y
  have h2 : noLtS (t ++ (closeSpan ++ post)) = true := by
    refine noWin2_append_head _ _ (noLtS_of_no_lt ht) h1 ?_
    intro c cs hc x
    have hcs : closeSpan ++ post = '<' :: ("/span>".data ++ post) := rfl
    rw [hcs] at hc
    injection hc with hc1 hc2
    rw [← hc1]
    exact pLtS_right_false (by decide) x
  refine noWin2_append_last _ _ (by decide) h2 ?_
  intro c hc y
  have hg : bookMidR.getLast? = some '>' := by decide
  rw [hg] at hc
  injection hc with hc
  subst hc
  exact pLtS_left_false (by decide) y

theorem bookTitles_single (pre t post : Str)
    (hpre : ∀ c ∈ pre, ¬c = '<') (ht_lt : ∀ c ∈ t, ¬c = '<')
    (ht_ap : ∀ c ∈ t, ¬c = '\'') (hpost : ∀ c ∈ post, ¬c = '<') :
    bookTitlesR (pre ++ bookSpanR t ++ post) = [t] := by
  have hopen : bookOpenR =
      '<' :: 's' :: "pan class=\"book-link\" onclick=\"window.handleBookClick('".data := rfl
  have hshape : pre ++ bookSpanR t ++ post =
      pre ++ (bookOpenR ++ (t ++ (bookMidR ++ (t ++ (closeSpan ++ post))))) := by
    simp [bookSpanR, List.append_assoc]
  unfold bookTitlesR
  rw [hshape, hopen]
  have hlen : (pre ++ (('<' :: 's' ::
        "pan class=\"book-link\" onclick=\"window.handleBookClick('".data) ++
        (t ++ (bookMidR ++ (t ++ (closeSpan ++ post)))))).length =
      pre.length + ((('<' :: 's' ::
        "pan class=\"book-link\" onclick=\"window.handleBookClick('".data) ++
        (t ++ (bookMidR ++ (t ++ (closeSpan ++ post))))).length) := by
    simp
  rw [hlen, bookTitlesAux_skip hpre]
  have hlen2 : ((('<' :: 's' ::
        "pan class=\"book-link\" onclick=\"window.handleBookClick('".data) ++
        (t ++ (bookMidR ++ (t ++ (closeSpan ++ post))))).length) =
      ((t ++ (bookMidR ++ (t ++ (closeSpan ++ post)))).length + 56) + 1 := by
    have hlit : ("pan class=\"book-link\" onclick=\"window.handleBookClick('".data).length =
        55 := by decide
    simp [hlit]
  rw [hlen2, bookTitlesAux_hit]
  have htake : (t ++ (bookMidR ++ (t ++ (closeSpan ++ post)))).takeWhile
      (fun c => !(c == '\'')) = t := by
    rw [takeWhile_append_allSat t _ (fun c hc => by
      simp [beq_eq_false_iff_ne.mpr (ht_ap c hc)])]
    have : bookMidR ++ (t ++ (closeSpan ++ post)) =
        '\'' :: (")\">".data ++ (t ++ (closeSpan ++ post))) := rfl
    rw [this, takeWhile_head_false _ _ (by simp)]
    simp
  have hdrop : (t ++ (bookMidR ++ (t ++ (closeSpan ++ post)))).dropWhile
      (fun c => !(c == '\'')) = bookMidR ++ (t ++ (closeSpan ++ post)) := by
    rw [dropWhile_append_allSat t _ (fun c hc => by
      simp [beq_eq_false_iff_ne.mpr (ht_ap c hc)])]
    have : bookMidR ++ (t ++ (closeSpan ++ post)) =
        '\'' :: (")\">".data ++ (t ++ (closeSpan ++ post))) := rfl
    rw [this, dropWhile_head_false _ _ (by simp)]
  rw [htake, hdrop]
  have hzero : countOccur ('<' :: 's' ::
      "pan class=\"book-link\" onclick=\"window.handleBookClick('".data)
      (bookMidR ++ (t ++ (closeSpan ++ post))) = 0 :=
    countOccur_zero_of_noLtS _ (noLtS_afterTitle t post ht_lt hpost)
  rw [bookTitlesAux_nil_of_countOccur hzero]

/-! ## The transformer on a string with a single plain-text title -/

theorem plainSeg_props {s : Str} (h : plainSeg s = true) :
    (∀ c ∈ s, ¬c = '*') ∧ (∀ c ∈ s, ¬c = '<') ∧ (∀ c ∈ s, ¬c = '\'') ∧
      noPM s = true ∧ noRM s = true := by
  simp only [plainSeg, Bool.and_eq_true, List.all_eq_true] at h
  obtain ⟨hall, hpm, hrm⟩ := h
  refine ⟨?_, ?_, ?_, hpm, hrm⟩ <;> intro c hc <;>
    have hx := hall c hc <;>
    simp only [Bool.and_eq_true, Bool.not_eq_true', beq_eq_false_iff_ne] at hx
  · exact hx.1.1
  · exact hx.1.2
  · exact hx.2

theorem formatMessageR_single (pre t post : Str) (hpre : plainSeg pre = true)
    (ht : plainSeg t = true) (htne : t ≠ []) (hpost : plainSeg post = true) :
    formatMessageR (pre ++ '*' :: '*' :: (t ++ '*' :: '*' :: post)) =
      pre ++ bookSpanR t ++ post := by
  obtain ⟨hpre1, hpre2, hpre3, hpre4, hpre5⟩ := plainSeg_props hpre
  obtain ⟨ht1, ht2, ht3, ht4, ht5⟩ := plainSeg_props ht
  obtain ⟨hpost1, hpost2, hpost3, hpost4, hpost5⟩ := plainSeg_props hpost
  unfold formatMessageR
  rw [replaceBookR_single pre t post hpre1 ht1 htne hpost1]
  rw [replacePrice_id (noPM_bookSpan pre t post hpre4 ht4 hpost4)]
  rw [replaceRatingR_id (noRM_bookSpan pre t post hpre5 ht5 hpost5)]

/-! ## The transformer on a standalone price amount -/

theorem takeWhile_all {p : Char → Bool} {l : Str} (h : ∀ c ∈ l, p c = true) :
    l.takeWhile p = l := by
  have := takeWhile_append_allSat l [] h
  simpa using this

theorem dropWhile_all {p : Char → Bool} {l : Str} (h : ∀ c ∈ l, p c = true) :
    l.dropWhile p = [] := by
  have := dropWhile_append_allSat l [] h
  simpa using this

theorem isDigit_ne {c : Char} (h : c.isDigit = true) {d : Char} (hd : d.isDigit = false) :
    ¬c = d := by
  intro he
  subst he
  rw [h] at hd
  simp at hd

theorem priceMatchAt_amount (ds fs : Str) (hds : ds ≠ [])
    (hds_d : ∀ c ∈ ds, c.isDigit = true) (hfs_d : ∀ c ∈ fs, c.isDigit = true) :
    priceMatchAt ('$' :: amountStr ds fs) = some (amountStr ds fs, []) := by
  rcases ds with _ | ⟨d0, ds'⟩
  · exact absurd rfl hds
  cases fs with
  | nil =>
    have ha : amountStr (d0 :: ds') [] = d0 :: ds' := by simp [amountStr]
    rw [ha]
    have htake : (d0 :: ds').takeWhile Char.isDigit = d0 :: ds' := takeWhile_all hds_d
    have hdrop : (d0 :: ds').dropWhile Char.isDigit = [] := dropWhile_all hds_d
    simp [priceMatchAt, htake, hdrop]
  | cons f fs' =>
    have ha : amountStr (d0 :: ds') (f :: fs') = (d0 :: ds') ++ '.' :: (f :: fs') := by
      simp [amountStr]
    rw [ha]
    have htake : ((d0 :: ds') ++ '.' :: (f :: fs')).takeWhile Char.isDigit = d0 :: ds' := by
      rw [takeWhile_append_allSat _ _ hds_d, takeWhile_head_false _ _ (by decide)]
      simp
    have hdrop : ((d0 :: ds') ++ '.' :: (f :: fs')).dropWhile Char.isDigit =
        '.' :: (f :: fs') := by
      rw [dropWhile_append_allSat _ _ hds_d, dropWhile_head_false _ _ (by decide)]
    have htake2 : (f :: fs').takeWhile Char.isDigit = f :: fs' := takeWhile_all hfs_d
    have hdrop2 : (f :: fs').dropWhile Char.isDigit = [] := dropWhile_all hfs_d
    simp only [List.cons_append] at htake hdrop
    simp [priceMatchAt, htake, hdrop, htake2, hdrop2]

theorem findPrice_amount (ds fs : Str) (hds : ds ≠ [])
    (hds_d : ∀ c ∈ ds, c.isDigit = true) (hfs_d : ∀ c ∈ fs, c.isDigit = true) :
    findPrice ('$' :: amountStr ds fs) =
      some ([], priceSpan (amountStr ds fs), []) := by
  simp [findPrice, priceMatchAt_amount ds fs hds hds_d hfs_d]

theorem replacePrice_amount (ds fs : Str) (hds : ds ≠ [])
    (hds_d : ∀ c ∈ ds, c.isDigit = true) (hfs_d : ∀ c ∈ fs, c.isDigit = true) :
    replacePrice ('$' :: amountStr ds fs) = priceSpan (amountStr ds fs) := by
  have := replace_single_generic (findPrice_amount ds fs hds hds_d hfs_d) rfl (by simp)
  simpa using this

theorem noRM_priceSpan (amt : Str) (h : ∀ c ∈ amt, ¬c = '/') :
    noRM (priceSpan amt) = true := by
  have h0 : noRM ('$' :: amt) = true := by
    refine noRM_of_no_slash ?_
    intro c hc
    rcases List.mem_cons.mp hc with hc | hc
    · subst hc; decide
    · exact h c hc
  have h1 : noRM (('$' :: amt) ++ closeSpan) = true := by
    refine noWin3_append_head _ _ h0 (by decide) ?_
    intro c cs hc
    have hcs : closeSpan = '<' :: "/span>".data := rfl
    rw [hcs] at hc
    injection hc with hc1 hc2
    rw [← hc1]
    exact ⟨fun x z => pRM_snd_false (by decide) x z, fun x y => pRM_trd_false (by decide) x y⟩
  have h2 : noRM (priceOpen ++ (('$' :: amt) ++ closeSpan)) = true := by
    refine noWin3_append_last _ _ (by decide) h1 ?_
    intro c hc
    have hg : priceOpen.getLast? = some '>' := by decide
    rw [hg] at hc
    injection hc with hc
    subst hc
    exact ⟨fun y z => pRM_fst_false (by decide) y z, fun x z => pRM_snd_false (by decide) x z⟩
  simpa [priceSpan, List.append_assoc] using h2

theorem priceAmountsAux_hit (u : Str) (n : Nat) :
    priceAmountsAux (n + 1) (priceOpen ++ u) =
      (((priceOpen ++ u).drop (priceOpen.length + 1)).takeWhile (fun c => !(c == '<'))) ::
        priceAmountsAux n
          (((priceOpen ++ u).drop (priceOpen.length + 1)).dropWhile (fun c => !(c == '<'))) := by
  have hp : hasPrefixL priceOpen (priceOpen ++ u) = true := hasPrefixL_append _ _
  have hshape : priceOpen ++ u = '<' :: ("span class=\"price-highlight\">".data ++ u) := rfl
  rw [hshape] at hp ⊢
  simp only [priceAmountsAux, hp, if_true]

theorem priceAmounts_span (amt : Str) (hlt : ∀ c ∈ amt, ¬c = '<') :
    priceAmounts (priceSpan amt) = [amt] := by
  have hshape : priceSpan amt = priceOpen ++ ('$' :: (amt ++ closeSpan)) := by
    simp [priceSpan]
  unfold priceAmounts
  rw [hshape]
  have hlen : (priceOpen ++ ('$' :: (amt ++ closeSpan))).length =
      (amt.length + 37) + 1 := by
    have : priceOpen.length = 30 := by decide
    simp [this, closeSpan]
    omega
  rw [hlen, priceAmountsAux_hit]
  have hd : (priceOpen ++ ('$' :: (amt ++ closeSpan))).drop (priceOpen.length + 1) =
      amt ++ closeSpan := drop_append_cons priceOpen '$' (amt ++ closeSpan)
  rw [hd]
  have htake : (amt ++ closeSpan).takeWhile (fun c => !(c == '<')) = amt := by
    rw [takeWhile_append_allSat amt _ (fun c hc => by
      simp [beq_eq_false_iff_ne.mpr (hlt c hc)])]
    have : closeSpan = '<' :: "/span>".data := rfl
    rw [this, takeWhile_head_false _ _ (by simp)]
    simp
  have hdrop : (amt ++ closeSpan).dropWhile (fun c => !(c == '<')) = closeSpan := by
    rw [dropWhile_append_allSat amt _ (fun c hc => by
      simp [beq_eq_false_iff_ne.mpr (hlt c hc)])]
    have : closeSpan = '<' :: "/span>".data := rfl
    rw [this, dropWhile_head_false _ _ (by simp)]
  rw [htake, hdrop]
  have hzero : countOccur priceOpen closeSpan = 0 := by decide
  rw [priceAmountsAux_nil_of_countOccur hzero]

theorem boldMatchAt_none {c : Char} {cs : Str} (h : ¬c = '*') :
    boldMatchAt (c :: cs) = none := by
  cases cs with
  | nil => rfl
  | cons c2 rest =>
    simp only [boldMatchAt]
    rw [if_neg]
    intro hand
    exact h hand.1

theorem findBold_none_of_starFree {s : Str} (h : ∀ c ∈ s, ¬c = '*') :
    findBold s = none := by
  induction s with
  | nil => rfl
  | cons c cs ih =>
    simp only [findBold, boldMatchAt_none (h c (by simp)),
      ih (fun d hd => h d (by simp [hd]))]
    rfl

theorem emMatchAt_none {c : Char} {cs : Str} (h : ¬c = '*') :
    emMatchAt (c :: cs) = none := by
  simp [emMatchAt, h]

theorem findEm_none_of_starFree {s : Str} (h : ∀ c ∈ s, ¬c = '*') :
    findEm s = none := by
  induction s with
  | nil => rfl
  | cons c cs ih =>
    simp only [findEm, emMatchAt_none (h c (by simp)),
      ih (fun d hd => h d (by simp [hd]))]
    rfl

theorem findBr_none {s : Str} (h : ∀ c ∈ s, ¬c = '\n') :
    findBr s = none := by
  induction s with
  | nil => rfl
  | cons c cs ih =>
    simp only [findBr, if_neg (h c (by simp)), ih (fun d hd => h d (by simp [hd]))]
    rfl

theorem replaceBold_id {s : Str} (h : ∀ c ∈ s, ¬c = '*') : replaceBold s = s :=
  rewriteAux_noMatch (findBold_none_of_starFree h) _

theorem replaceEm_id {s : Str} (h : ∀ c ∈ s, ¬c = '*') : replaceEm s = s :=
  rewriteAux_noMatch (findEm_none_of_starFree h) _

theorem replaceBr_id {s : Str} (h : ∀ c ∈ s, ¬c = '\n') : replaceBr s = s :=
  rewriteAux_noMatch (findBr_none h) _

/-- Characters of a dollar-amount input: the dollar sign, digits, and
possibly a dot. -/
theorem amount_chars {ds fs : Str} (hds_d : ∀ c ∈ ds, c.isDigit = true)
    (hfs_d : ∀ c ∈ fs, c.isDigit = true) :
    ∀ c ∈ '$' :: amountStr ds fs, c = '$' ∨ c = '.' ∨ c.isDigit = true := by
  intro c hc
  rcases List.mem_cons.mp hc with hc | hc
  · exact Or.inl hc
  · unfold amountStr at hc
    by_cases hfs : fs.isEmpty
    · rw [if_pos hfs] at hc
      exact Or.inr (Or.inr (hds_d c hc))
    · rw [if_neg hfs] at hc
      rcases List.mem_append.mp hc with hc | hc
      · exact Or.inr (Or.inr (hds_d c hc))
      · rcases List.mem_cons.mp hc with hc | hc
        · exact Or.inr (Or.inl hc)
        · exact Or.inr (Or.inr (hfs_d c hc))

theorem formatMessageR_amount (ds fs : Str) (hds : ds ≠ [])
    (hds_d : ∀ c ∈ ds, c.isDigit = true) (hfs_d : ∀ c ∈ fs, c.isDigit = true) :
    formatMessageR ('$' :: amountStr ds fs) = priceSpan (amountStr ds fs) := by
  have hchars := amount_chars hds_d hfs_d
  have hstar : ∀ c ∈ '$' :: amountStr ds fs, ¬c = '*' := by
    intro c hc
    rcases hchars c hc with hc1 | hc1 | hc1
    · subst hc1; decide
    · subst hc1; decide
    · exact isDigit_ne hc1 (by decide)
  have hslash : ∀ c ∈ amountStr ds fs, ¬c = '/' := by
    intro c hc
    rcases hchars c (by simp [hc]) with hc1 | hc1 | hc1
    · subst hc1; decide
    · subst hc1; decide
    · exact isDigit_ne hc1 (by decide)
  unfold formatMessageR
  rw [replaceBookR_id hstar, replacePrice_amount ds fs hds hds_d hfs_d,
    replaceRatingR_id (noRM_priceSpan _ hslash)]

theorem formatMessageW_amount (ds fs : Str) (hds : ds ≠ [])
    (hds_d : ∀ c ∈ ds, c.isDigit = true) (hfs_d : ∀ c ∈ fs, c.isDigit = true) :
    formatMessageW ('$' :: amountStr ds fs) = priceSpan (amountStr ds fs) := by
  have hchars := amount_chars hds_d hfs_d
  have hstar : ∀ c ∈ '$' :: amountStr ds fs, ¬c = '*' := by
    intro c hc
    rcases hchars c hc with hc1 | hc1 | hc1
    · subst hc1; decide
    · subst hc1; decide
    · exact isDigit_ne hc1 (by decide)
  have hnl : ∀ c ∈ '$' :: amountStr ds fs, ¬c = '\n' := by
    intro c hc
    rcases hchars c hc with hc1 | hc1 | hc1
    · subst hc1; decide
    · subst hc1; decide
    · exact isDigit_ne hc1 (by decide)
  have hslash : ∀ c ∈ '$' :: amountStr ds fs, ¬c = '/' := by
    intro c hc
    rcases hchars c hc with hc1 | hc1 | hc1
    · subst hc1; decide
    · subst hc1; decide
    · exact isDigit_ne hc1 (by decide)
  unfold formatMessageW
  rw [replaceBold_id hstar, replaceEm_id hstar, replaceBr_id hnl, replaceBookW_id hstar,
    replaceRatingW_id (noRM_of_no_slash hslash),
    replacePrice_amount ds fs hds hds_d hfs_d]

/-- The amount text contains no less-than character. -/
theorem amount_no_lt {ds fs : Str} (hds_d : ∀ c ∈ ds, c.isDigit = true)
    (hfs_d : ∀ c ∈ fs, c.isDigit = true) : ∀ c ∈ amountStr ds fs, ¬c = '<' := by
  intro c hc
  rcases amount_chars hds_d hfs_d c (by simp [hc]) with hc1 | hc1 | hc1
  · subst hc1; decide
  · subst hc1; decide
  · exact isDigit_ne hc1 (by decide)

/-! ## Star decomposition arithmetic -/

theorem digit_toNat_le {c : Char} (h : c.isDigit = true) : c.toNat - 48 ≤ 9 := by
  simp [Char.isDigit] at h
  obtain ⟨h1, h2⟩ := h
  have ha := UInt32.toNat_le_of_le (n := c.val) (m := 57) (by decide) h2
  simp [Char.toNat]
  omega

theorem foldl_digits_lt (l : Str) : ∀ n, (∀ c ∈ l, c.isDigit = true) →
    l.foldl (fun n c => 10 * n + (c.toNat - 48)) n < (n + 1) * 10 ^ l.length := by
  induction l with
  | nil =>
    intro n h
    simpa using Nat.lt_succ_self n
  | cons c l ih =>
    intro n h
    have hd : c.toNat - 48 ≤ 9 := digit_toNat_le (h c (by simp))
    have hrec := ih (10 * n + (c.toNat - 48)) (fun d hd' => h d (by simp [hd']))
    have hstep : 10 * n + (c.toNat - 48) + 1 ≤ (n + 1) * 10 := by omega
    have h2 : (10 * n + (c.toNat - 48) + 1) * 10 ^ l.length ≤
        ((n + 1) * 10) * 10 ^ l.length := Nat.mul_le_mul_right _ hstep
    have h3 : ((n + 1) * 10) * 10 ^ l.length = (n + 1) * 10 ^ (l.length + 1) := by
      rw [pow_succ]
      ring
    simp only [List.foldl_cons, List.length_cons]
    exact lt_of_lt_of_le hrec (h3 ▸ h2)

theorem digitsToNat_lt {l : Str} (h : ∀ c ∈ l, c.isDigit = true) :
    digitsToNat l < 10 ^ l.length := by
  have := foldl_digits_lt l 0 h
  simpa [digitsToNat] using this

/-- The digit-string computation of the star decomposition agrees with
the decomposition of the exact rational value of the parsed literal. -/
theorem starCountsD_eq (ds fs : Str) (hds : ∀ c ∈ ds, c.isDigit = true)
    (hfs : ∀ c ∈ fs, c.isDigit = true) :
    starCountsD ds fs = starCounts (decVal ds fs) := by
  have hflt : digitsToNat fs < 10 ^ fs.length := digitsToNat_lt hfs
  have h10 : (0 : ℚ) < 10 ^ fs.length := by positivity
  have hfrac0 : (0 : ℚ) ≤ (digitsToNat fs : ℚ) / 10 ^ fs.length := by positivity
  have hfrac1 : (digitsToNat fs : ℚ) / 10 ^ fs.length < 1 := by
    rw [div_lt_one h10]
    exact_mod_cast hflt
  have hfloor : ⌊decVal ds fs⌋ = (digitsToNat ds : ℤ) := by
    rw [Int.floor_eq_iff]
    constructor
    · push_cast
      unfold decVal
      linarith
    · push_cast
      unfold decVal
      linarith
  have hhalf : ((1 : ℚ) / 2 ≤ decVal ds fs - (((digitsToNat ds : ℤ)) : ℚ)) ↔
      (10 ^ fs.length ≤ 2 * digitsToNat fs) := by
    unfold decVal
    push_cast
    rw [add_sub_cancel_left, div_le_div_iff (by norm_num) h10]
    rw [one_mul]
    constructor
    · intro hx
      have hx' : (10 : ℚ) ^ fs.length ≤ 2 * (digitsToNat fs : ℚ) := by linarith
      exact_mod_cast hx'
    · intro hx
      have hx' : (10 : ℚ) ^ fs.length ≤ 2 * (digitsToNat fs : ℚ) := by exact_mod_cast hx
      linarith
  have hd : decide ((1 : ℚ) / 2 ≤ decVal ds fs - (((digitsToNat ds : ℤ)) : ℚ)) =
      decide (10 ^ fs.length ≤ 2 * digitsToNat fs) := decide_eq_decide.mpr hhalf
  simp only [starCountsD, starCounts, hfloor, hd]

theorem glyphTotal_eq_five {q : ℚ} (h0 : 0 ≤ q) (h5 : q ≤ 5) : glyphTotal q = 5 := by
  have hf0 : 0 ≤ ⌊q⌋ := Int.floor_nonneg.mpr h0
  have hf5 : ⌊q⌋ ≤ 5 := by
    have := Int.floor_le_floor h5
    simpa using this
  rcases hdec : decide ((1 : ℚ) / 2 ≤ q - ((⌊q⌋ : ℤ) : ℚ)) with _ | _
  · simp only [glyphTotal, glyphCounts, starCounts, hdec]
    simp only [Bool.false_eq_true, if_false]
    omega
  · have hh : (1 : ℚ) / 2 ≤ q - ((⌊q⌋ : ℤ) : ℚ) := of_decide_eq_true hdec
    have hlt : ⌊q⌋ ≤ 4 := by
      by_contra hcon
      push_neg at hcon
      have h55 : (5 : ℤ) ≤ ⌊q⌋ := hcon
      have hc5 : (5 : ℚ) ≤ ((⌊q⌋ : ℤ) : ℚ) := by exact_mod_cast h55
      linarith
    simp only [glyphTotal, glyphCounts, starCounts, hdec, if_true]
    omega

theorem emptyGlyphs_zero_of_gt {q : ℚ} (h : 5 < q) : (glyphCounts q).2.2 = 0 := by
  have h5 : (5 : ℤ) ≤ ⌊q⌋ := by
    rw [Int.le_floor]
    push_cast
    linarith
  rcases hdec : decide ((1 : ℚ) / 2 ≤ q - ((⌊q⌋ : ℤ) : ℚ)) with _ | _
  · simp only [glyphCounts, starCounts, hdec]
    simp only [Bool.false_eq_true, if_false]
    omega
  · simp only [glyphCounts, starCounts, hdec, if_true]
    omega

/-! ## Claim theorems -/

/-- Claim C1, counterexample.  The claim states that for every input
with exactly one well-formed emphasis-delimited title the transformer
yields exactly one BookReference token whose title equals the delimited
substring verbatim.  For the input with the single well-formed title
Rated 4/5, the rating substitution re-scans the book-link output and
rewrites the embedded 4/5 inside both copies of the title, so no
BookReference token carries the title verbatim. -/
theorem c1_counterexample :
    ¬ bookTitlesR (formatMessageR ("**Rated 4/5**".data)) = ["Rated 4/5".data] := by
  decide

/-- Claim C1, amended.  For every input string with exactly one
well-formed emphasis-delimited title whose surrounding text and title
are plain segments (no asterisk, no markup characters colliding with
the generated span, no price match and no rating match), formatMessage
of Message.js emits exactly the book-link span for the title, and the
produced token stream holds exactly one BookReference token whose title
equals the delimited substring verbatim. -/
theorem c1_amended (pre t post : Str) (hpre : plainSeg pre = true)
    (ht : plainSeg t = true) (htne : t ≠ []) (hpost : plainSeg post = true) :
    formatMessageR (pre ++ '*' :: '*' :: (t ++ '*' :: '*' :: post)) =
      pre ++ bookSpanR t ++ post ∧
    bookTitlesR (formatMessageR (pre ++ '*' :: '*' :: (t ++ '*' :: '*' :: post))) = [t] := by
  have hmain := formatMessageR_single pre t post hpre ht htne hpost
  obtain ⟨hpre1, hpre2, hpre3, hpre4, hpre5⟩ := plainSeg_props hpre
  obtain ⟨ht1, ht2, ht3, ht4, ht5⟩ := plainSeg_props ht
  obtain ⟨hpost1, hpost2, hpost3, hpost4, hpost5⟩ := plainSeg_props hpost
  refine ⟨hmain, ?_⟩
  rw [hmain]
  exact bookTitles_single pre t post hpre2 ht2 ht3 hpost2

/-- Claim C1, witness. -/
theorem c1_witness :
    bookTitlesR (formatMessageR ("Try ".data ++ '*' :: '*' ::
      ("Dune".data ++ '*' :: '*' :: " today".data))) = ["Dune".data] :=
  (c1_amended ("Try ".data) ("Dune".data) (" today".data)
    (by decide) (by decide) (by decide) (by decide)).2

/-- Claim C2, counterexample.  The claim states that when a rating
pattern falls inside an emphasis-delimited title, the transformer emits
a single BookReference token and no Rating token for the embedded
pattern.  For the input whose single title is 4/5, the transformer
emits Rating markup nested inside the BookReference. -/
theorem c2_counterexample :
    ¬ ratingCountR (formatMessageR ("**4/5**".data)) = 0 := by
  decide

/-- Claim C2, amended.  The three rules are applied as sequential
global substitutions, each scanning the output of the previous one
rather than the original raw string.  When a rating pattern falls
inside an emphasis-delimited title, the book rule fires first and the
rating rule then rewrites the embedded pattern inside the produced
span: the output holds one BookReference token and two Rating tokens
(the title text is duplicated into the click-handler argument and the
visible content).  In the script.js variant the title becomes bold
markup and the embedded rating is likewise rewritten inside it. -/
theorem c2_amended :
    countOccur bookOpenR (formatMessageR ("**4/5**".data)) = 1 ∧
    ratingCountR (formatMessageR ("**4/5**".data)) = 2 ∧
    countOccur strongOpen (formatMessageW ("**4/5**".data)) = 1 ∧
    ratingCountW (formatMessageW ("**4/5**".data)) = 1 := by
  decide

/-- Claim C3.  The star decomposition satisfies fullStars equal to the
floor, a half star exactly when the fractional part is at least one
half, emptyStars equal to five minus fullStars minus the half star,
rendered clamped at zero when the rating exceeds five; every rating in
the range zero to five renders exactly five glyphs; the digit-level
computation agrees with the decomposition of the exact parsed value;
and the inputs 0, 2.5 and 5 decompose as (0,0,5), (2,1,2) and
(5,0,0). -/
theorem c3_star_decomposition :
    (∀ q : ℚ, 0 ≤ q → q ≤ 5 → glyphTotal q = 5 ∧ (starCounts q).1 = ⌊q⌋ ∧
      ((starCounts q).2.1 = true ↔ (1 : ℚ) / 2 ≤ q - ((⌊q⌋ : ℤ) : ℚ)) ∧
      (starCounts q).2.2 = 5 - ⌊q⌋ - (if (starCounts q).2.1 then 1 else 0)) ∧
    (∀ q : ℚ, 5 < q → (glyphCounts q).2.2 = 0) ∧
    (∀ ds fs : Str, (∀ c ∈ ds, c.isDigit = true) → (∀ c ∈ fs, c.isDigit = true) →
      starCountsD ds fs = starCounts (decVal ds fs)) ∧
    glyphCountsD ("0".data) [] = (0, 0, 5) ∧
    glyphCountsD ("2".data) ("5".data) = (2, 1, 2) ∧
    glyphCountsD ("5".data) [] = (5, 0, 0) := by
  refine ⟨?_, fun q h => emptyGlyphs_zero_of_gt h, starCountsD_eq, by decide, by decide,
    by decide⟩
  intro q h0 h5
  refine ⟨glyphTotal_eq_five h0 h5, rfl, ?_, rfl⟩
  simp [starCounts]

/-- Claim C3, witness. -/
theorem c3_witness : glyphTotal ((5 : ℚ) / 2) = 5 :=
  ((c3_star_decomposition.1 ((5 : ℚ) / 2) (by norm_num) (by norm_num)).1)

/-- Claim C4, counterexample.  The claim states that calling
sendMessage while the controller is busy is a no-op: the transcript
does not change and no request is issued.  The sendMessage of the
React useChat hook checks only that the trimmed text is non-empty, so
called directly in a busy state it still appends the user message,
issues a request and appends the bot message. -/
theorem c4_counterexample :
    ¬ ((sendMessageReact ⟨[], true, "session_1_a".data⟩ ("Hello".data)
        (some ⟨"Hi there".data, "greeting".data⟩)).1.messages.length = 0 ∧
      (sendMessageReact ⟨[], true, "session_1_a".data⟩ ("Hello".data)
        (some ⟨"Hi there".data, "greeting".data⟩)).2 = 0) := by
  decide

/-- Claim C4, amended.  In the web client, sendMessage called while the
busy flag is set is a no-op: the state is unchanged and no request is
issued.  In the React client the guard lives in the UI entry point
handleSend, which is likewise a no-op while busy; the hook's own
sendMessage checks only non-emptiness of the trimmed text and issues a
request even while busy, growing the transcript by two messages. -/
theorem c4_amended :
    (∀ (st : WebSt) (text : Str) (r : Option ChatResponse), st.isLoading = true →
      sendMessageWeb st text r = (st, 0)) ∧
    (∀ (st : ReactChatSt) (input : Str) (r : Option ChatResponse), st.isLoading = true →
      handleSendReact st input r = (st, 0)) ∧
    (∀ (st : ReactChatSt) (input : Str) (r : Option ChatResponse),
      (trimStr input).isEmpty = false →
      (sendMessageReact st input r).2 = 1 ∧
      (sendMessageReact st input r).1.messages.length = st.messages.length + 2) := by
  refine ⟨?_, ?_, ?_⟩
  · intro st text r h
    simp [sendMessageWeb, h]
  · intro st input r h
    simp [handleSendReact, h]
  · intro st input r h
    cases r with
    | none => simp [sendMessageReact, h]
    | some resp => simp [sendMessageReact, h]

/-- Claim C4, witness. -/
theorem c4_witness :
    sendMessageWeb ⟨[], true, "session_1_a".data⟩ ("Hello".data)
      (some ⟨"Hi there".data, "greeting".data⟩) = (⟨[], true, "session_1_a".data⟩, 0) :=
  c4_amended.1 ⟨[], true, "session_1_a".data⟩ ("Hello".data)
    (some ⟨"Hi there".data, "greeting".data⟩) rfl

/-- Claim C5.  For every chat turn whose backend call fails, both
variants of sendMessage append the optimistic user message and then
exactly one fallback bot message with the fixed text, leave the busy
flag false afterwards, and issue exactly one request (no retry); the
step functions are total, so the failure is absorbed rather than
re-thrown. -/
theorem c5_failure_fallback :
    (∀ (st : WebSt) (text : Str), st.isLoading = false →
      (trimStr text).isEmpty = false →
      (sendMessageWeb st text none).1.messages =
        st.messages ++ [⟨Sender.user, trimStr text, none⟩, ⟨Sender.bot, fallbackText, none⟩] ∧
      (sendMessageWeb st text none).1.isLoading = false ∧
      (sendMessageWeb st text none).2 = 1) ∧
    (∀ (st : ReactChatSt) (input : Str), (trimStr input).isEmpty = false →
      (sendMessageReact st input none).1.messages =
        st.messages ++ [⟨Sender.user, input, none⟩, ⟨Sender.bot, fallbackText, none⟩] ∧
      (sendMessageReact st input none).1.isLoading = false ∧
      (sendMessageReact st input none).2 = 1) := by
  constructor
  · intro st text h1 h2
    simp [sendMessageWeb, h1, h2]
  · intro st input h
    simp [sendMessageReact, h]

/-- Claim C5, witness. -/
theorem c5_witness :
    (sendMessageWeb ⟨[], false, "session_1_a".data⟩ (" Hi ".data) none).1.messages =
      [⟨Sender.user, "Hi".data, none⟩, ⟨Sender.bot, fallbackText, none⟩] := by
  have h := (c5_failure_fallback.1 ⟨[], false, "session_1_a".data⟩ (" Hi ".data)
    rfl (by decide)).1
  simpa using h

/-- Claim C6, counterexample.  The claim states that when a second
book-detail activation supersedes a pending one, the displayed
BookDetail is the one from the most recently initiated request.  The
code has no generation check: after activating 1984 and then Dune,
with Dune's result arriving first and 1984's afterwards, the displayed
BookDetail is 1984, not Dune. -/
theorem c6_counterexample :
    (runArrivalsWeb (bookStartWeb (bookStartWeb ⟨[], false, false, none⟩))
        ["Dune".data, "1984".data]).displayedTitle = some ("1984".data) ∧
    ¬ (runArrivalsWeb (bookStartWeb (bookStartWeb ⟨[], false, false, none⟩))
        ["Dune".data, "1984".data]).displayedTitle = some ("Dune".data) := by
  decide

/-- Claim C6, amended.  Overlapping book-detail lookups resolve to
whichever result arrives last, in both variants: after any non-empty
sequence of successful completions, the displayed BookDetail is the one
carried by the last arrival, and the detail view is open. -/
theorem c6_amended (st : BookSt) (st2 : ReactAppSt) (l : List Str) (d : Str) :
    (runArrivalsWeb st (l ++ [d])).displayedTitle = some d ∧
    (runArrivalsWeb st (l ++ [d])).modalOpen = true ∧
    (runArrivalsReact st2 (l ++ [d])).selectedBook = some d ∧
    (runArrivalsReact st2 (l ++ [d])).isModalOpen = true := by
  induction l generalizing st st2 with
  | nil => simp [runArrivalsWeb, runArrivalsReact, bookFinishWeb, handleBookClickReact]
  | cons x l ih =>
    simp only [List.cons_append, runArrivalsWeb, runArrivalsReact]
    exact ih _ _

/-- Claim C7, counterexample.  The claim states that the new-session
operation replaces the session identifier with a freshly generated one.
The React useChat hook creates its session id once, destructures no
setter for it, and its newSession only resets the transcript: the
session id after newSession is the same value. -/
theorem c7_counterexample :
    (newSessionReact ⟨[], false, "session_1_a".data⟩).sessionId = "session_1_a".data := by
  decide

/-- Claim C7, amended.  The session identifier is never mutated in
place in either variant.  In the web client, newSession replaces it
with the freshly generated id (distinct whenever the generator output
differs from the old id) and clearChat keeps it; in the React client
the id is created once per client lifetime and both clearChat and
newSession keep it unchanged. -/
theorem c7_amended :
    (∀ (st : WebSt) (now rand : Str),
      (newSessionWeb st now rand).sessionId = generateSessionId now rand ∧
      (¬ generateSessionId now rand = st.sessionId →
        ¬ (newSessionWeb st now rand).sessionId = st.sessionId)) ∧
    (∀ st : WebSt, (clearChatWeb st).sessionId = st.sessionId) ∧
    (∀ st : ReactChatSt, (clearChatReact st).sessionId = st.sessionId) ∧
    (∀ st : ReactChatSt, (newSessionReact st).sessionId = st.sessionId) := by
  refine ⟨?_, fun st => rfl, fun st => rfl, fun st => rfl⟩
  intro st now rand
  refine ⟨rfl, ?_⟩
  intro hne hcon
  exact hne hcon

/-- Claim C7, witness. -/
theorem c7_witness :
    ¬ (newSessionWeb ⟨[], false, "session_1_a".data⟩ ("2".data) ("b".data)).sessionId =
      "session_1_a".data :=
  (c7_amended.1 ⟨[], false, "session_1_a".data⟩ ("2".data) ("b".data)).2 (by decide)

/-- Claim C8, counterexample.  The claim states that every failed
book-detail activation appends a bot message reporting that the title
could not be found.  The React handleBookClick only logs the error:
the application state, including the transcript, is unchanged and no
bot message is appended. -/
theorem c8_counterexample :
    handleBookClickReact ⟨[], none, false⟩ none = ⟨[], none, false⟩ ∧
    (handleBookClickReact ⟨[], none, false⟩ none).messages = [] := by
  decide

/-- Claim C8, amended.  On a failed lookup, the web client appends the
not-found bot message and leaves the detail view unchanged (closed when
it was closed, no BookDetail stored), while the React client leaves all
state unchanged and appends nothing; on success both store the result
as the current BookDetail and open the detail view. -/
theorem c8_amended (st : BookSt) (title d : Str) (st2 : ReactAppSt) :
    ((showBookDetailsWeb st title none).messages =
        st.messages ++ [⟨Sender.bot, notFoundText title, none⟩] ∧
      (showBookDetailsWeb st title none).modalOpen = st.modalOpen ∧
      (showBookDetailsWeb st title none).displayedTitle = st.displayedTitle ∧
      (st.modalOpen = false → (showBookDetailsWeb st title none).modalOpen = false)) ∧
    ((showBookDetailsWeb st title (some d)).displayedTitle = some d ∧
      (showBookDetailsWeb st title (some d)).modalOpen = true ∧
      (showBookDetailsWeb st title (some d)).messages = st.messages) ∧
    (handleBookClickReact st2 none = st2) ∧
    ((handleBookClickReact st2 (some d)).selectedBook = some d ∧
      (handleBookClickReact st2 (some d)).isModalOpen = true) := by
  refine ⟨⟨rfl, rfl, rfl, ?_⟩, ⟨rfl, rfl, rfl⟩, rfl, rfl, rfl⟩
  intro h
  simp [showBookDetailsWeb, bookFinishWeb, bookStartWeb, h]

/-- Claim C8, witness. -/
theorem c8_witness :
    (showBookDetailsWeb ⟨[], false, false, none⟩ ("Dune".data) none).modalOpen = false :=
  (c8_amended ⟨[], false, false, none⟩ ("Dune".data) ("Dune".data)
    ⟨[], none, false⟩).1.2.2.2 rfl

/-- Claim C9, counterexample.  The claim states that every occurrence
of a dollar sign immediately followed by a numeric amount yields a
Price token.  The raw text 2/5 preceded by a dollar sign contains such
an occurrence (noPM is false on it), yet the script.js transformer
applies the rating rule before the price rule, the rating rule consumes
the digits, and the output holds no Price token. -/
theorem c9_counterexample :
    noPM ("$2/5".data) = false ∧
    priceAmounts (formatMessageW ("$2/5".data)) = [] := by
  decide

/-- Claim C9, amended.  For a standalone dollar-amount input, both
transformers yield exactly one Price token carrying the amount string
without the dollar sign; in particular the dollar form of 19.99 yields
Price 19.99 in both.  When the amount digits are immediately followed
by the rating suffix, the script.js transformer (rating rule first)
yields no Price token, while the Message.js transformer (price rule
first) still yields the Price token. -/
theorem c9_amended :
    (∀ ds fs : Str, ds ≠ [] → (∀ c ∈ ds, c.isDigit = true) →
      (∀ c ∈ fs, c.isDigit = true) →
      priceAmounts (formatMessageR ('$' :: amountStr ds fs)) = [amountStr ds fs] ∧
      priceAmounts (formatMessageW ('$' :: amountStr ds fs)) = [amountStr ds fs]) ∧
    priceAmounts (formatMessageR ("$19.99".data)) = ["19.99".data] ∧
    priceAmounts (formatMessageW ("$19.99".data)) = ["19.99".data] ∧
    priceAmounts (formatMessageW ("$2/5".data)) = [] ∧
    priceAmounts (formatMessageR ("$2/5".data)) = ["2".data] := by
  refine ⟨?_, by decide, by decide, by decide, by decide⟩
  intro ds fs hds hds_d hfs_d
  constructor
  · rw [formatMessageR_amount ds fs hds hds_d hfs_d]
    exact priceAmounts_span _ (amount_no_lt hds_d hfs_d)
  · rw [formatMessageW_amount ds fs hds hds_d hfs_d]
    exact priceAmounts_span _ (amount_no_lt hds_d hfs_d)

/-- Claim C9, witness. -/
theorem c9_witness :
    priceAmounts (formatMessageR ('$' :: amountStr ("19".data) ("99".data))) =
      [amountStr ("19".data) ("99".data)] :=
  (c9_amended.1 ("19".data) ("99".data) (by decide) (by decide) (by decide)).1

/-- Claim C10.  The detail view renders at most the first three entries
of the reviews list: the rendering depends only on the first three
reviews, and each rendered review shows the first two hundred
characters of the review text followed by three dots; reviews beyond
the third are never displayed.  Both variants render identically up to
their star markup. -/
theorem c10_reviews_rendering :
    (∀ reviews : List Review, (renderReviewsWeb reviews).length ≤ 3 ∧
      (renderReviewsReact reviews).length ≤ 3) ∧
    (∀ l1 l2 : List Review, l1.take 3 = l2.take 3 →
      renderReviewsWeb l1 = renderReviewsWeb l2 ∧
      renderReviewsReact l1 = renderReviewsReact l2) ∧
    (∀ (reviews : List Review) (rr : RenderedReview), rr ∈ renderReviewsWeb reviews →
      ∃ r, r ∈ reviews ∧ rr = renderReviewWeb r ∧
        rr.text = r.review_text.take 200 ++ "...".data) ∧
    (∀ (reviews : List Review) (rr : RenderedReview), rr ∈ renderReviewsReact reviews →
      ∃ r, r ∈ reviews ∧ rr = renderReviewReact r ∧
        rr.text = r.review_text.take 200 ++ "...".data) := by
  refine ⟨?_, ?_, ?_, ?_⟩
  · intro reviews
    constructor <;>
      simp [renderReviewsWeb, renderReviewsReact, List.length_take]
  · intro l1 l2 h
    constructor <;> simp [renderReviewsWeb, renderReviewsReact, h]
  · intro reviews rr hrr
    simp only [renderReviewsWeb, List.mem_map] at hrr
    obtain ⟨r, hr, hrfl⟩ := hrr
    exact ⟨r, List.take_subset 3 reviews hr, hrfl.symm, by rw [← hrfl]; rfl⟩
  · intro reviews rr hrr
    simp only [renderReviewsReact, List.mem_map] at hrr
    obtain ⟨r, hr, hrfl⟩ := hrr
    exact ⟨r, List.take_subset 3 reviews hr, hrfl.symm, by rw [← hrfl]; rfl⟩

/-- Claim C10, witness. -/
theorem c10_witness :
    renderReviewsWeb
        [⟨"A".data, "4".data, [], "good".data, "d".data, "s".data⟩,
          ⟨"A".data, "4".data, [], "good".data, "d".data, "s".data⟩,
          ⟨"A".data, "4".data, [], "good".data, "d".data, "s".data⟩,
          ⟨"A".data, "4".data, [], "good".data, "d".data, "s".data⟩] =
      renderReviewsWeb
        [⟨"A".data, "4".data, [], "good".data, "d".data, "s".data⟩,
          ⟨"A".data, "4".data, [], "good".data, "d".data, "s".data⟩,
          ⟨"A".data, "4".data, [], "good".data, "d".data, "s".data⟩] :=
  (c10_reviews_rendering.2.1 _ _ (by decide)).1
